import Mathlib

/-!
Verification of the token-usage calculator core (calculator.ts).

The development shallowly embeds the calculator module: the model pricing
registry, the image-token estimator, the UTC date helpers, the aggregation
structures and their single mutation entry point, the rolling-context
accumulator over flattened turn entries, the per-conversation processing and
rollup, and the orchestrator.  JavaScript numbers that hold token counts are
embedded as natural numbers; costs (fractional dollars) are embedded as
rationals; JavaScript objects used as string-keyed maps are embedded as
insertion-ordered association lists; the 24-element hours array is a Lean
list.  Pieces that are pure browser plumbing (console logging, performance
timing) have no observable effect on the modeled values and are omitted.
The model-slug pre-scan only installs zero-rate placeholder entries into the
pricing table, and absent slugs already price as zero rate at lookup time,
so cost computation is embedded against the fixed literal pricing table.
-/

namespace WhatTheToken

/-- Replace the element at an index of a list, leaving the list unchanged
when the index is out of range.  Embeds an in-place update of one cell of a
JavaScript array. -/
def modifyAt {α : Type} (f : α → α) : List α → Nat → List α
  | [], _ => []
  | a :: as, 0 => f a :: as
  | a :: as, n + 1 => a :: modifyAt f as n

/-- Lookup in a string-keyed association list, embedding `obj[key]` on a
JavaScript object used as a map. -/
def alookup {α : Type} (k : String) : List (String × α) → Option α
  | [] => none
  | (k₀, v) :: rest => if k₀ = k then some v else alookup k rest

/-- Update a string-keyed association list at a key: apply `f` to the stored
value, or to `dflt` (appending the key) when the key is absent.  Embeds the
JavaScript idiom `if (!m[k]) m[k] = dflt; mutate(m[k])`; appending preserves
the insertion order of object keys. -/
def aupdate {α : Type} (k : String) (dflt : α) (f : α → α) : List (String × α) → List (String × α)
  | [] => [(k, f dflt)]
  | (k₀, v) :: rest => if k₀ = k then (k₀, f v) :: rest else (k₀, v) :: aupdate k dflt f rest

/-- Append an element if it is not already present.  Embeds `Set.add` on a
JavaScript `Set`, which keeps insertion order and ignores duplicates. -/
def insertIfAbsent (x : String) (l : List String) : List String :=
  if x ∈ l then l else l ++ [x]

/-- ASCII lowercase of one character, as `String.toLowerCase` acts on the
ASCII detail strings reaching `countImageTokens`. -/
def lowerChar (c : Char) : Char :=
  if 'A' ≤ c ∧ c ≤ 'Z' then Char.ofNat (c.toNat + 32) else c

/-- ASCII lowercase of a string, embedding `detail.toLowerCase()`. -/
def strLower (s : String) : String := ⟨s.data.map lowerChar⟩

/-- Per-million input and output rates of one entry of `MODEL_COSTS`. -/
structure CostCfg where
  input : Rat
  output : Rat
deriving DecidableEq, Repr

/-- The literal per-million-token pricing table `MODEL_COSTS` of
calculator.ts. -/
def MODEL_COSTS : List (String × CostCfg) :=
  [ ("o1-pro", ⟨150, 600⟩)
  , ("o1-mini", ⟨1.1, 4.4⟩)
  , ("o4-mini-high", ⟨1.1, 4.4⟩)
  , ("o4-mini", ⟨1.1, 4.4⟩)
  , ("gpt-4", ⟨30, 60⟩)
  , ("gpt-4-turbo", ⟨10, 30⟩)
  , ("gpt-4o", ⟨5, 15⟩)
  , ("gpt-3.5-turbo", ⟨0.5, 1.5⟩)
  , ("o3-mini", ⟨1.1, 4.4⟩)
  , ("o3-mini-high", ⟨1.1, 4.4⟩)
  , ("gpt-4o-jawbone", ⟨2.5, 10⟩)
  , ("gpt-4-5", ⟨75, 150⟩)
  , ("text-davinci-002-render-sha", ⟨12, 12⟩)
  , ("o1", ⟨15, 60⟩)
  , ("o3", ⟨10, 40⟩)
  , ("o1-preview", ⟨15, 60⟩)
  , ("gpt-4o-mini", ⟨0.15, 0.6⟩)
  , ("gpt-4-gizmo", ⟨30, 60⟩)
  , ("gpt-4-code-interpreter", ⟨30, 60⟩)
  , ("auto", ⟨5, 15⟩)
  , ("research", ⟨1.1, 4.4⟩)
  , ("dalle-2", ⟨0, 0⟩)
  , ("dalle-3", ⟨0, 0⟩)
  , ("gpt-image-1", ⟨0, 0⟩) ]

/-- The literal flat per-image pricing table `IMAGE_MODEL_COSTS` of
calculator.ts. -/
def IMAGE_MODEL_COSTS : List (String × Rat) :=
  [ ("dalle-2", 0.02)
  , ("dalle-3", 0.08)
  , ("gpt-image-1", 0.167) ]

/-- `countImageTokens` of calculator.ts: the low-detail constant, the
downscale of images whose larger side exceeds 2048 pixels, and the
85 + 170-per-512x512-tile formula.  The JavaScript branch
`aspectRatio > 1` on `width / height` is embedded as `height < width`,
which agrees with it on all natural inputs reaching the branch (including
a zero dimension, where the JavaScript ratio is infinite).  `Math.floor`
of the scaled side is natural division; `Math.ceil (w / 512)` is
`(w + 511) / 512`.  The source function is async but performs no await
and has no side effect: its value is this pure function. -/
def countImageTokens (width height : Nat) (detail : String) : Nat :=
  if strLower detail = "low" then 85
  else
    let p : Nat × Nat :=
      if 2048 < width ∨ 2048 < height then
        if height < width then (2048, 2048 * height / width)
        else (2048 * width / height, 2048)
      else (width, height)
    let tilesWide := (p.1 + 511) / 512
    let tilesHigh := (p.2 + 511) / 512
    85 + 170 * (tilesWide * tilesHigh)

/-- The image scaling in the words of the specification: when either
dimension exceeds 2048, scale both dimensions proportionally (with floor)
so that the larger side becomes 2048.  Stated for comparison against the
aspect-ratio branch of `countImageTokens`. -/
def specScaledDims (w h : Nat) : Nat × Nat :=
  if 2048 < w ∨ 2048 < h then
    if h ≤ w then (2048, 2048 * h / w) else (2048 * w / h, 2048)
  else (w, h)

/-- The high-detail token count in the words of the specification:
85 + 170 × ceil(width/512) × ceil(height/512) on the scaled dimensions. -/
def specHighTokens (w h : Nat) : Nat :=
  85 + 170 * ((((specScaledDims w h).1 + 511) / 512) * (((specScaledDims w h).2 + 511) / 512))

/-- Proleptic-Gregorian civil date (year, month, day) from a count of days
since the Unix epoch, as computed by the JavaScript `Date` UTC accessors. -/
def civilFromDays (z₀ : Int) : Int × Int × Int :=
  let z := z₀ + 719468
  let era := z.fdiv 146097
  let doe := z - era * 146097
  let yoe := (doe - doe / 1460 + doe / 36524 - doe / 146096) / 365
  let doy := doe - (365 * yoe + yoe / 4 - yoe / 100)
  let mp := (5 * doy + 2) / 153
  let d := doy - (153 * mp + 2) / 5 + 1
  let m := mp + (if mp < 10 then 3 else -9)
  (yoe + era * 400 + (if m ≤ 2 then 1 else 0), m, d)

/-- Two-digit zero padding, embedding `String(n).padStart(2, "0")`. -/
def pad2 (n : Int) : String :=
  if n < 10 then "0" ++ toString n else toString n

/-- `getDayKey` of calculator.ts: detect millisecond timestamps by
magnitude (`Math.floor` of the division is floor division), then format
the UTC calendar date `YYYY-MM-DD` of the instant `unixTime * 1000`
milliseconds, exactly as the JavaScript `Date` UTC accessors do (day
number is the floor of milliseconds over 86400000).  Timestamps are
embedded as integers; a fractional part below the bucketing granularity
is dropped. -/
def getDayKey (unixTime : Int) : String :=
  let t : Int := if 100000000000 < unixTime then unixTime.fdiv 1000 else unixTime
  let days : Int := (t * 1000).fdiv 86400000
  let c := civilFromDays days
  toString c.1 ++ "-" ++ pad2 c.2.1 ++ "-" ++ pad2 c.2.2

/-- `getHourOfDay` of calculator.ts: detect millisecond timestamps by
magnitude, then the UTC hour of the instant, namely
`floor(ms / 3600000) mod 24` with a nonnegative modulus, exactly the
JavaScript `HourFromTime` specification. -/
def getHourOfDay (unixTime : Int) : Fin 24 :=
  let t : Int := if 100000000000 < unixTime then unixTime.fdiv 1000 else unixTime
  let hr : Int := (t * 1000).fdiv 3600000 % 24
  ⟨hr.toNat, by
    have h₁ : 0 ≤ (t * 1000).fdiv 3600000 % 24 := Int.emod_nonneg _ (by norm_num)
    have h₂ : (t * 1000).fdiv 3600000 % 24 < 24 := Int.emod_lt_of_pos _ (by norm_num)
    omega⟩

/-- Usage statistics for a single hour (`HourBucket` of calculator.ts). -/
structure HourBucket where
  input_tokens : Nat
  output_tokens : Nat
  cost : Rat
  message_count : Nat
  conversation_count : Nat
deriving DecidableEq, Repr

/-- Daily totals plus the 24 hour-by-hour buckets (`BucketWithHours`). -/
structure BucketWithHours where
  input_tokens : Nat
  output_tokens : Nat
  cost : Rat
  message_count : Nat
  conversation_count : Nat
  hours : List HourBucket
deriving DecidableEq, Repr

/-- Usage on one day: the cross-model total and the per-model buckets
(`DayBucket`). -/
structure DayBucket where
  total : BucketWithHours
  models : List (String × BucketWithHours)
deriving DecidableEq, Repr

/-- The root aggregation structure (`Aggregator`), keyed by day. -/
structure Aggregator where
  usageByDay : List (String × DayBucket)
  startDate : Option String
  endDate : Option String
  totalCostAllModels : Rat
  allModelSlugs : List String
deriving DecidableEq, Repr

/-- `createHourBucket` of calculator.ts. -/
def createHourBucket : HourBucket :=
  { input_tokens := 0, output_tokens := 0, cost := 0, message_count := 0, conversation_count := 0 }

/-- `createBucketWithHours` of calculator.ts: zero totals and 24 fresh hour
buckets. -/
def createBucketWithHours : BucketWithHours :=
  { input_tokens := 0, output_tokens := 0, cost := 0, message_count := 0, conversation_count := 0,
    hours := List.replicate 24 createHourBucket }

/-- `createDayBucket` of calculator.ts. -/
def createDayBucket : DayBucket :=
  { total := createBucketWithHours, models := [] }

/-- The empty aggregator with which `processConversations` starts. -/
def emptyAggregator : Aggregator :=
  { usageByDay := [], startDate := none, endDate := none, totalCostAllModels := 0, allModelSlugs := [] }

/-- Add one usage record to every counter of a bucket, leaving
`conversation_count` alone, as the four hour-level increment blocks of
`updateAggregatorUsage` do. -/
def bumpHour (inputTokens outputTokens : Nat) (cost : Rat) (hb : HourBucket) : HourBucket :=
  { input_tokens := hb.input_tokens + inputTokens
  , output_tokens := hb.output_tokens + outputTokens
  , cost := hb.cost + cost
  , message_count := hb.message_count + 1
  , conversation_count := hb.conversation_count }

/-- Add one usage record to the totals of a `BucketWithHours` and to its
hour bucket at `hour`, as the model-level and day-level increment blocks of
`updateAggregatorUsage` do. -/
def bumpBucket (hour : Fin 24) (inputTokens outputTokens : Nat) (cost : Rat) (b : BucketWithHours) : BucketWithHours :=
  { input_tokens := b.input_tokens + inputTokens
  , output_tokens := b.output_tokens + outputTokens
  , cost := b.cost + cost
  , message_count := b.message_count + 1
  , conversation_count := b.conversation_count
  , hours := modifyAt (bumpHour inputTokens outputTokens cost) b.hours hour.val }

/-- `updateAggregatorUsage` of calculator.ts: lazily create the day and
model buckets, compute the cost of this batch of tokens (flat per-image
rate for image models, else per-million rates with a zero-rate default for
unknown slugs), then increment the model hour bucket, the model daily
totals, the day total hour bucket and the day total daily totals by the
same deltas, with `message_count` up by one in all four places and
`conversation_count` untouched. -/
def updateAggregatorUsage (aggregator : Aggregator) (dayKey : String) (hour : Fin 24)
    (modelSlug : String) (inputTokens outputTokens : Nat) : Aggregator :=
  let cost : Rat :=
    match alookup modelSlug IMAGE_MODEL_COSTS with
    | some perImage => (outputTokens : Rat) * perImage
    | none =>
      let costCfg := (alookup modelSlug MODEL_COSTS).getD ⟨0, 0⟩
      (inputTokens : Rat) / 1000000 * costCfg.input + (outputTokens : Rat) / 1000000 * costCfg.output
  { aggregator with
    usageByDay := aupdate dayKey createDayBucket
      (fun dayBucket =>
        { total := bumpBucket hour inputTokens outputTokens cost dayBucket.total
        , models := aupdate modelSlug createBucketWithHours
            (bumpBucket hour inputTokens outputTokens cost) dayBucket.models })
      aggregator.usageByDay }

/-- One flattened turn entry as built by `processMappedMessages`: the role,
the pre-computed token counts of the three channels, the effective model
slug, the recap/final markers, and the image-generation facts of the node
that the flattening loop inspects on tool messages: whether the author is
`dalle.text2im`, whether any of the non-part-count image-generation
markers is set (`metadata.image_gen_async`, `metadata.generation`, or a
part carrying `metadata.generation` or `metadata.dalle`), and how many
parts are `image_asset_pointer` parts. -/
structure FlatMsg where
  role : String
  contentTokens : Nat
  searchTokens : Nat
  outputTokens : Nat
  model_slug : String
  isReasoningRecap : Bool
  isFinalMessage : Bool
  isDalleTool : Bool
  imageGenMarker : Bool
  numImageParts : Nat
deriving DecidableEq, Repr

/-- The conversation-local state of the rolling-context accumulator of
`processFlatMessagesWithTokenCounts`: the aggregator being mutated, the
two rolling counters, and the set of models used. -/
structure FlatState where
  agg : Aggregator
  ctx : Nat
  pend : Nat
  models : List String

/-- One iteration of the loop of `processFlatMessagesWithTokenCounts`:
skip reasoning recaps; add positive search tokens to the rolling context
for any role; user/system/tool content extends the context; an assistant
entry extends the context by its content and output tokens, accumulates
pending output, records a non-placeholder slug, and, when final, commits
one usage update with the rolling totals and clears the pending output. -/
def processFlatStep (dayKey : String) (hour : Fin 24) (s : FlatState) (msg : FlatMsg) : FlatState :=
  if msg.isReasoningRecap then s
  else
    let ctx₁ := if 0 < msg.searchTokens then s.ctx + msg.searchTokens else s.ctx
    if msg.role = "user" ∨ msg.role = "system" ∨ msg.role = "tool" then
      { s with ctx := ctx₁ + msg.contentTokens }
    else if msg.role = "assistant" then
      let models₁ := if msg.model_slug ≠ "unknown_model" then insertIfAbsent msg.model_slug s.models else s.models
      let ctx₂ := ctx₁ + msg.contentTokens + msg.outputTokens
      let pend₂ := s.pend + msg.outputTokens
      if msg.isFinalMessage then
        { agg := updateAggregatorUsage s.agg dayKey hour msg.model_slug ctx₂ pend₂
        , ctx := ctx₂, pend := 0, models := models₁ }
      else
        { s with ctx := ctx₂, pend := pend₂, models := models₁ }
    else
      { s with ctx := ctx₁ }

/-- `processFlatMessagesWithTokenCounts` of calculator.ts: fold the rolling
accumulator over the flattened entries in emission order, starting from
zero context and zero pending output. -/
def processFlatMessagesWithTokenCounts (messages : List FlatMsg) (dayKey : String) (hour : Fin 24)
    (aggregator : Aggregator) : FlatState :=
  messages.foldl (processFlatStep dayKey hour) { agg := aggregator, ctx := 0, pend := 0, models := [] }

/-- The sequence of usage updates (model slug, input tokens, output tokens)
committed by the rolling accumulator from given rolling counters: the
commit-event projection of `processFlatMessagesWithTokenCounts`, mirroring
its branches literally.  `flatFold_commits` below proves that folding
`updateAggregatorUsage` over this trace reproduces the aggregator the
accumulator builds. -/
def flatCommitTrace : List FlatMsg → Nat → Nat → List (String × Nat × Nat)
  | [], _, _ => []
  | msg :: rest, ctx, pend =>
    if msg.isReasoningRecap then flatCommitTrace rest ctx pend
    else
      let ctx₁ := if 0 < msg.searchTokens then ctx + msg.searchTokens else ctx
      if msg.role = "user" ∨ msg.role = "system" ∨ msg.role = "tool" then
        flatCommitTrace rest (ctx₁ + msg.contentTokens) pend
      else if msg.role = "assistant" then
        let ctx₂ := ctx₁ + msg.contentTokens + msg.outputTokens
        let pend₂ := pend + msg.outputTokens
        if msg.isFinalMessage then (msg.model_slug, ctx₂, pend₂) :: flatCommitTrace rest ctx₂ 0
        else flatCommitTrace rest ctx₂ pend₂
      else flatCommitTrace rest ctx₁ pend

/-- The models-used set computed by the rolling accumulator, separated from
the aggregator fold: non-placeholder slugs of non-recap assistant entries
in encounter order. -/
def flatModelStep (ms : List String) (msg : FlatMsg) : List String :=
  if msg.isReasoningRecap then ms
  else if msg.role = "user" ∨ msg.role = "system" ∨ msg.role = "tool" then ms
  else if msg.role = "assistant" then
    if msg.model_slug ≠ "unknown_model" then insertIfAbsent msg.model_slug ms else ms
  else ms

/-- The models-used set computed over a whole flattened message list. -/
def flatModels (messages : List FlatMsg) : List String :=
  messages.foldl flatModelStep []

/-- The image-generation handling the flattening loop of
`processMappedMessages` performs on each tool message, threading the
aggregator and the conversation's models-used set: a `dalle.text2im` tool
message with image-asset-pointer parts immediately commits one
`updateAggregatorUsage` for `"dalle-3"` with the image count stored in
`outputTokens` and records the slug; then, when any image-generation
marker is set or an image part is present, a tool message with
image-asset-pointer parts commits one update for `"gpt-image-1"` the same
way and records that slug.  Both blocks bypass the rolling accumulator. -/
def imageGenStep (dayKey : String) (hour : Fin 24) (p : Aggregator × List String)
    (msg : FlatMsg) : Aggregator × List String :=
  if msg.role = "tool" then
    let p₁ :=
      if msg.isDalleTool ∧ 0 < msg.numImageParts then
        (updateAggregatorUsage p.1 dayKey hour "dalle-3" 0 msg.numImageParts,
         insertIfAbsent "dalle-3" p.2)
      else p
    if (msg.imageGenMarker ∨ 0 < msg.numImageParts) ∧ 0 < msg.numImageParts then
      (updateAggregatorUsage p₁.1 dayKey hour "gpt-image-1" 0 msg.numImageParts,
       insertIfAbsent "gpt-image-1" p₁.2)
    else p₁
  else p

/-- The models-used projection of `imageGenStep` (it does not depend on
the aggregator component). -/
def imageModelStep (ms : List String) (msg : FlatMsg) : List String :=
  if msg.role = "tool" then
    let ms₁ := if msg.isDalleTool ∧ 0 < msg.numImageParts then insertIfAbsent "dalle-3" ms else ms
    if (msg.imageGenMarker ∨ 0 < msg.numImageParts) ∧ 0 < msg.numImageParts then
      insertIfAbsent "gpt-image-1" ms₁
    else ms₁
  else ms

/-- The image-generation slugs a flattened message list discovers. -/
def imageModels (messages : List FlatMsg) : List String :=
  messages.foldl imageModelStep []

/-- The sequence of direct image-generation usage updates the flattening
loop commits, in node order: the commit-event projection of the
`imageGenStep` fold.  `imageFold_commits` below proves that folding
`updateAggregatorUsage` over this trace reproduces the aggregator the
fold builds. -/
def imageCommitTrace : List FlatMsg → List (String × Nat × Nat)
  | [] => []
  | msg :: rest =>
    if msg.role = "tool" then
      ((if msg.isDalleTool ∧ 0 < msg.numImageParts
        then [("dalle-3", 0, msg.numImageParts)] else []) ++
       (if (msg.imageGenMarker ∨ 0 < msg.numImageParts) ∧ 0 < msg.numImageParts
        then [("gpt-image-1", 0, msg.numImageParts)] else [])) ++
      imageCommitTrace rest
    else imageCommitTrace rest

/-- `processMappedMessages` of calculator.ts, over the flattened entries:
the flattening loop walks every node once, committing the direct
image-generation updates of tool messages as it goes (all of them land in
the aggregator before any rolling-accumulator commit, since the flat fold
runs only after the loop); then the rolling accumulator processes the
flattened entries, and the models used by the flat stage are unioned into
the image-generation slugs.  Returns the mutated aggregator and the
conversation's models-used set. -/
def processMappedMessages (messages : List FlatMsg) (dayKey : String) (hour : Fin 24)
    (aggregator : Aggregator) : Aggregator × List String :=
  let pre := messages.foldl (imageGenStep dayKey hour) (aggregator, [])
  let step := processFlatMessagesWithTokenCounts messages dayKey hour pre.1
  (step.agg, step.models.foldl (fun l s => insertIfAbsent s l) pre.2)

/-- One conversation, embedded at the flattened level: the optional
creation timestamp (absent models a missing or non-numeric `create_time`)
and the flattened turn entries of its node mapping with token counts
already computed (`none` models a conversation without a `mapping` field).
The text/image tokenization that produces the counts happens upstream in
`processMappedMessages` and is not part of the claims settled here. -/
structure Conversation where
  create_time : Option Int
  mapping : Option (List FlatMsg)
deriving DecidableEq, Repr

/-- Increment the day total `conversation_count` of a day bucket (the first
half of the per-conversation rollup). -/
def incTotalConv (dayBucket : DayBucket) : DayBucket :=
  { dayBucket with
    total := { dayBucket.total with conversation_count := dayBucket.total.conversation_count + 1 } }

/-- Increment the daily `conversation_count` of one model's bucket of a day
(the loop body of the rollup), creating the model bucket when absent. -/
def incModelConv (modelSlug : String) (dayBucket : DayBucket) : DayBucket :=
  { dayBucket with
    models := aupdate modelSlug createBucketWithHours
      (fun mb => { mb with conversation_count := mb.conversation_count + 1 })
      dayBucket.models }

/-- One step of the rollup loop over a conversation's used models. -/
def rollupModelStep (dayKey : String) (a : Aggregator) (modelSlug : String) : Aggregator :=
  { a with usageByDay := aupdate dayKey createDayBucket (incModelConv modelSlug) a.usageByDay }

/-- The per-conversation `conversation_count` rollup at the end of
`processConversation`: when the day key is recognized and at least one
model was used, increment the day total conversation count once and each
used model's daily conversation count once. -/
def conversationRollup (aggregator : Aggregator) (dayKey : String) (modelsUsed : List String) : Aggregator :=
  if dayKey ≠ "unknown-day" ∧ modelsUsed ≠ [] then
    let agg₁ := { aggregator with
      usageByDay := aupdate dayKey createDayBucket incTotalConv aggregator.usageByDay }
    modelsUsed.foldl (rollupModelStep dayKey) agg₁
  else aggregator

/-- The day-bucket creation step of `processConversation`: when the day
key is recognized, make sure the aggregator has a bucket for it. -/
def ensureDay (aggregator : Aggregator) (dayKey : String) : Aggregator :=
  if dayKey ≠ "unknown-day" then
    { aggregator with usageByDay := aupdate dayKey createDayBucket id aggregator.usageByDay }
  else aggregator

/-- `processConversation` of calculator.ts, over the flattened conversation:
take the creation timestamp, falling back to the current wall-clock time
(`Date.now() / 1000`, passed here explicitly as `now`, in unix seconds)
when it is missing; derive the day key and hour; make sure the day bucket
exists; run `processMappedMessages` over the flattened entries of the
mapping (direct image-generation commits during flattening, then the
rolling accumulator; a conversation without a mapping is skipped with a
warning); then perform the conversation-count rollup over the models the
conversation used.  Returns the mutated aggregator and that set. -/
def processConversation (now : Int) (conversation : Conversation) (aggregator : Aggregator) :
    Aggregator × List String :=
  let conversationTimestamp := conversation.create_time.getD now
  let dayKey := getDayKey conversationTimestamp
  let hour := getHourOfDay conversationTimestamp
  let agg₁ := ensureDay aggregator dayKey
  let r :=
    match conversation.mapping with
    | some messages => processMappedMessages messages dayKey hour agg₁
    | none => (agg₁, [])
  (conversationRollup r.1 dayKey r.2, r.2)

/-- The loop body of the orchestrator's processing phase: process one
conversation and union its used models into `allModelSlugs`. -/
def orchStep (now : Int) (a : Aggregator) (c : Conversation) : Aggregator :=
  let r := processConversation now c a
  { r.1 with allModelSlugs := r.2.foldl (fun l s => insertIfAbsent s l) r.1.allModelSlugs }

/-- `processConversations` of calculator.ts, the orchestrator: the model
slug pre-scan only installs zero-rate placeholders (observationally the
zero-rate default of cost lookup) and is omitted; compute the global date
range over the conversations that carry a numeric timestamp; process each
conversation in input order, unioning its used models into
`allModelSlugs`; finally sum the per-day total costs.  `now` is the
wall-clock instant (unix seconds) the source reads from `Date.now()` for
conversations with a missing timestamp. -/
def processConversations (now : Int) (data : List Conversation) : Aggregator :=
  let times := data.filterMap (fun c => c.create_time)
  let agg₀ :=
    match times with
    | [] => emptyAggregator
    | t :: rest =>
      { emptyAggregator with
        startDate := some (getDayKey (rest.foldl min t))
        endDate := some (getDayKey (rest.foldl max t)) }
  let aggDone := data.foldl (orchStep now) agg₀
  { aggDone with
    totalCostAllModels := (aggDone.usageByDay.map (fun p => p.2.total.cost)).sum }

/-- The settlement state of one `countTextTokens` promise as observed by
its caller. -/
inductive PromiseState where
  | pending
  | resolved (count : Nat)
  | rejected
deriving DecidableEq, Repr

/-- The module-level state of the tokenizer worker facade of calculator.ts:
whether the `worker` handle is non-null, the `workerReady` flag, the
`nextRequestId` counter, the ids held by the `pendingRequests` and
`errorCallbacks` maps, and the observable settlement state of every
request's promise.  A promise settles only when its stored callback is
invoked; the maps hold those callbacks, so every transition that settles a
promise also removes its id from `pending`. -/
structure TokenizerState where
  workerAlive : Bool
  workerReady : Bool
  nextRequestId : Nat
  pending : List Nat
  promises : Nat → PromiseState

/-- A message arriving on the worker channel: the ready signal, or a
response correlated by id carrying an optional count, an optional error,
and the fallback marker. -/
inductive WorkerMsg where
  | ready
  | response (id : Nat) (count : Option Nat) (error : Option String) (fallbackUsed : Bool)

/-- Registering one new request, as `countTextTokens` does for non-empty
text in the browser: allocate the next id, store the resolver and
rejecter, leaving the promise pending until a response or error arrives. -/
def startTokenRequest (s : TokenizerState) : TokenizerState × Nat :=
  ({ s with
      nextRequestId := s.nextRequestId + 1
      pending := s.pending ++ [s.nextRequestId]
      promises := fun j => if j = s.nextRequestId then .pending else s.promises j },
   s.nextRequestId)

/-- The `worker.onmessage` handler: a ready signal flips `workerReady`; a
response whose id has stored callbacks resolves with the count (also when
an error comes with a usable fallback count), rejects otherwise, and
forgets the id; a response for an unknown id only logs a warning. -/
def workerOnMessage (s : TokenizerState) (msg : WorkerMsg) : TokenizerState :=
  match msg with
  | .ready => { s with workerReady := true }
  | .response id count error fallbackUsed =>
    if id ∈ s.pending then
      let outcome : PromiseState :=
        match error, count, fallbackUsed with
        | some _, some c, true => .resolved c
        | some _, _, _ => .rejected
        | none, some c, _ => .resolved c
        | none, none, _ => .rejected
      { s with
        pending := s.pending.erase id
        promises := fun j => if j = id then outcome else s.promises j }
    else s

/-- The `worker.onerror` handler: reject every pending request, clear the
maps, and null out the handle. -/
def workerOnError (s : TokenizerState) : TokenizerState :=
  { s with
    workerAlive := false
    workerReady := false
    pending := []
    promises := fun j => if j ∈ s.pending then .rejected else s.promises j }

/-- `terminateTokenizerWorker` of calculator.ts: when a worker handle
exists, terminate it, null the handle, drop readiness, and clear the
`pendingRequests` and `errorCallbacks` maps.  No stored callback is
invoked, so no promise settles here. -/
def terminateTokenizerWorker (s : TokenizerState) : TokenizerState :=
  if s.workerAlive then
    { s with workerAlive := false, workerReady := false, pending := [] }
  else s

/-- The day bucket stored for a day key, or a fresh empty one when the day
is absent (absent keys read as zero usage). -/
def dayBucketOf (a : Aggregator) (day : String) : DayBucket :=
  (alookup day a.usageByDay).getD createDayBucket

/-- The per-model bucket of a day, or a fresh empty one when absent. -/
def modelBucketOf (a : Aggregator) (day modelSlug : String) : BucketWithHours :=
  (alookup modelSlug (dayBucketOf a day).models).getD createBucketWithHours

/-- The day total `conversation_count` read off an aggregator. -/
def dayConvCount (a : Aggregator) (day : String) : Nat :=
  (dayBucketOf a day).total.conversation_count

/-- The per-model daily `conversation_count` read off an aggregator. -/
def modelConvCount (a : Aggregator) (day modelSlug : String) : Nat :=
  (modelBucketOf a day modelSlug).conversation_count

/-- The aggregators reachable from the empty aggregator by any sequence of
`updateAggregatorUsage` calls and per-conversation rollups. -/
inductive Reach : Aggregator → Prop where
  | empty : Reach emptyAggregator
  | update (a : Aggregator) (dayKey : String) (hour : Fin 24) (modelSlug : String)
      (inputTokens outputTokens : Nat) : Reach a →
      Reach (updateAggregatorUsage a dayKey hour modelSlug inputTokens outputTokens)
  | rollup (a : Aggregator) (dayKey : String) (modelsUsed : List String) : Reach a →
      Reach (conversationRollup a dayKey modelsUsed)

/-- The hour-sum balance a `BucketWithHours` is claimed to satisfy for each
of its five counter fields, including `conversation_count`. -/
def bucketBalancedClaim (b : BucketWithHours) : Prop :=
  (b.hours.map (fun hb => hb.input_tokens)).sum = b.input_tokens ∧
  (b.hours.map (fun hb => hb.output_tokens)).sum = b.output_tokens ∧
  (b.hours.map (fun hb => hb.cost)).sum = b.cost ∧
  (b.hours.map (fun hb => hb.message_count)).sum = b.message_count ∧
  (b.hours.map (fun hb => hb.conversation_count)).sum = b.conversation_count

/-- The claimed invariant over a whole aggregator: every day total bucket
and every per-model bucket is hour-sum balanced in all five fields. -/
def aggBalancedClaim (a : Aggregator) : Prop :=
  ∀ day modelSlug : String,
    bucketBalancedClaim (dayBucketOf a day).total ∧ bucketBalancedClaim (modelBucketOf a day modelSlug)

/-- The hour-sum balance that actually holds: the four message-level fields
balance, while the hour-level `conversation_count` entries are all zero. -/
def bucketBalancedHolds (b : BucketWithHours) : Prop :=
  (b.hours.map (fun hb => hb.input_tokens)).sum = b.input_tokens ∧
  (b.hours.map (fun hb => hb.output_tokens)).sum = b.output_tokens ∧
  (b.hours.map (fun hb => hb.cost)).sum = b.cost ∧
  (b.hours.map (fun hb => hb.message_count)).sum = b.message_count ∧
  (b.hours.map (fun hb => hb.conversation_count)).sum = 0

/-- Strengthened per-bucket invariant carried through the reachability
induction: the balances plus the fixed 24-slot shape of the hours array. -/
def bucketStrong (b : BucketWithHours) : Prop :=
  b.hours.length = 24 ∧ bucketBalancedHolds b

/-- Strengthened per-day invariant: the total and every model bucket. -/
def dayStrong (db : DayBucket) : Prop :=
  bucketStrong db.total ∧ ∀ p ∈ db.models, bucketStrong p.2

/-- Strengthened aggregator invariant. -/
def aggStrong (a : Aggregator) : Prop :=
  ∀ p ∈ a.usageByDay, dayStrong p.2

/-- The day key a conversation's usage is bucketed under, including the
wall-clock fallback for a missing timestamp. -/
def convDayKey (now : Int) (c : Conversation) : String :=
  getDayKey (c.create_time.getD now)

/-- The models-used set a conversation contributes to the rollup: the
image-generation slugs its tool messages discover during flattening, with
the rolling accumulator's non-placeholder assistant slugs unioned in, as
`processMappedMessages` assembles them. -/
def convModels (c : Conversation) : List String :=
  (flatModels (c.mapping.getD [])).foldl (fun l s => insertIfAbsent s l)
    (imageModels (c.mapping.getD []))

/-- All usage updates a conversation commits: the direct image-generation
commits of the flattening loop (which run first), then the rolling
accumulator's commits. -/
def convCommits (c : Conversation) : List (String × Nat × Nat) :=
  imageCommitTrace (c.mapping.getD []) ++ flatCommitTrace (c.mapping.getD []) 0 0

/-- A user turn entry with given content tokens (no search, no output). -/
def userMsg (contentTokens : Nat) : FlatMsg :=
  { role := "user", contentTokens := contentTokens, searchTokens := 0, outputTokens := 0
  , model_slug := "unknown_model", isReasoningRecap := false, isFinalMessage := false
  , isDalleTool := false, imageGenMarker := false, numImageParts := 0 }

/-- An assistant turn entry with given output tokens and slug. -/
def assistantMsg (modelSlug : String) (outputTokens : Nat) (final : Bool) : FlatMsg :=
  { role := "assistant", contentTokens := 0, searchTokens := 0, outputTokens := outputTokens
  , model_slug := modelSlug, isReasoningRecap := false, isFinalMessage := final
  , isDalleTool := false, imageGenMarker := false, numImageParts := 0 }

/-- A `dalle.text2im` tool entry carrying the given number of generated
image parts and no text tokens. -/
def dalleToolMsg (numImageParts : Nat) : FlatMsg :=
  { role := "tool", contentTokens := 0, searchTokens := 0, outputTokens := 0
  , model_slug := "unknown_model", isReasoningRecap := false, isFinalMessage := false
  , isDalleTool := true, imageGenMarker := false, numImageParts := numImageParts }

/-- The two-turn conversation of the rolling-context example: user "A"
(1 content token), assistant "B" (1 output token, final), user "C"
(1 content token), assistant "D" (1 output token, final); the two
assistant turns carry distinct slugs so their commits stay separable. -/
def convC2 : List FlatMsg :=
  [ userMsg 1, assistantMsg "m1" 1 true, userMsg 1, assistantMsg "m2" 1 true ]

/-- A reachable aggregator carrying one usage update and one rollup, the
explicit input at which the claimed five-field hour balance fails. -/
def aggEx : Aggregator :=
  conversationRollup
    (updateAggregatorUsage emptyAggregator "2025-01-01" ⟨0, by omega⟩ "gpt-4" 1 1)
    "2025-01-01" ["gpt-4"]

/-- A conversation whose only entry is a non-final assistant message with a
known slug: it discovers a model but commits no usage update. -/
def convNoFinal : Conversation :=
  { create_time := some 0, mapping := some [assistantMsg "gpt-4" 1 false] }

/-- A conversation with a missing creation timestamp whose single turn
commits one usage update. -/
def convMissingTs : Conversation :=
  { create_time := none, mapping := some [assistantMsg "gpt-4" 1 true] }

/-- A conversation with a numeric creation timestamp whose single turn
commits one usage update. -/
def convTimed : Conversation :=
  { create_time := some 1700000000, mapping := some [assistantMsg "gpt-4" 1 true] }

/-- A conversation whose only activity is one image-generation tool call
(two generated images): it commits dalle-3 and gpt-image-1 usage directly
from the flattening loop and discovers those two slugs, without any
assistant entry. -/
def convImageOnly : Conversation :=
  { create_time := some 0, mapping := some [dalleToolMsg 2] }

/-- A tokenizer state with a live, ready worker and one outstanding request
(id 0), as after one `countTextTokens` call that has not yet been
answered. -/
def tokenizerBusy : TokenizerState :=
  (startTokenRequest
    { workerAlive := true, workerReady := true, nextRequestId := 0, pending := []
    , promises := fun _ => PromiseState.pending }).1

theorem alookup_aupdate_self {α : Type} (k : String) (d : α) (f : α → α) (m : List (String × α)) :
    alookup k (aupdate k d f m) = some (f ((alookup k m).getD d)) := by
  induction m with
  | nil => simp [alookup, aupdate]
  | cons p rest ih =>
    obtain ⟨k₀, v⟩ := p
    by_cases h : k₀ = k
    · simp [alookup, aupdate, h]
    · simp [alookup, aupdate, h, ih]

theorem alookup_aupdate_ne {α : Type} {k k' : String} (h : k' ≠ k) (d : α) (f : α → α)
    (m : List (String × α)) : alookup k (aupdate k' d f m) = alookup k m := by
  induction m with
  | nil => simp [alookup, aupdate, h]
  | cons p rest ih =>
    obtain ⟨k₀, v⟩ := p
    by_cases h₀ : k₀ = k'
    · subst h₀
      simp [alookup, aupdate, h]
    · by_cases h₁ : k₀ = k <;> simp [alookup, aupdate, h₀, h₁, ih, Ne.symm h]

theorem aupdate_forall {α : Type} {P : α → Prop} {k : String} {d : α} {f : α → α}
    {m : List (String × α)} (hm : ∀ p ∈ m, P p.2) (hf : ∀ x, P x → P (f x)) (hd : P d) :
    ∀ p ∈ aupdate k d f m, P p.2 := by
  induction m with
  | nil =>
    intro p hp
    simp [aupdate] at hp
    simp [hp, hf d hd]
  | cons q rest ih =>
    obtain ⟨k₀, v⟩ := q
    intro p hp
    by_cases h : k₀ = k
    · simp [aupdate, h] at hp
      rcases hp with hp | hp
      · subst hp
        exact hf v (hm (k₀, v) (by simp))
      · exact hm p (by simp [hp])
    · simp [aupdate, h] at hp
      rcases hp with hp | hp
      · subst hp
        exact hm (k₀, v) (by simp)
      · exact ih (fun q hq => hm q (by simp [hq])) p hp

theorem modifyAt_length {α : Type} (f : α → α) : ∀ (l : List α) (n : Nat),
    (modifyAt f l n).length = l.length
  | [], _ => rfl
  | _ :: as, 0 => rfl
  | _ :: as, n + 1 => by simp [modifyAt, modifyAt_length f as n]

theorem mem_modifyAt {α : Type} (f : α → α) : ∀ (l : List α) (n : Nat) (x : α),
    x ∈ modifyAt f l n → x ∈ l ∨ ∃ y ∈ l, x = f y := by
  intro l
  induction l with
  | nil => intro n x hx; simp [modifyAt] at hx
  | cons a as ih =>
    intro n x hx
    cases n with
    | zero =>
      simp [modifyAt] at hx
      rcases hx with hx | hx
      · exact Or.inr ⟨a, by simp, hx⟩
      · exact Or.inl (by simp [hx])
    | succ n =>
      simp [modifyAt] at hx
      rcases hx with hx | hx
      · exact Or.inl (by simp [hx])
      · rcases ih n x hx with h | ⟨y, hy, hxy⟩
        · exact Or.inl (by simp [h])
        · exact Or.inr ⟨y, by simp [hy], hxy⟩

theorem sum_map_modifyAt {α M : Type} [AddCancelCommMonoid M] (g : α → M) (f : α → α)
    (d : M) : ∀ (l : List α) (n : Nat) (h : n < l.length),
    g (f (l.get ⟨n, h⟩)) = g (l.get ⟨n, h⟩) + d →
    ((modifyAt f l n).map g).sum = (l.map g).sum + d := by
  intro l
  induction l with
  | nil => intro n h; simp at h
  | cons a as ih =>
    intro n h hg
    cases n with
    | zero =>
      simp [modifyAt, List.get] at hg ⊢
      rw [hg]
      abel
    | succ n =>
      simp [modifyAt, List.get] at hg ⊢
      rw [ih n (by simpa using h) hg]
      abel

theorem foldl_preserve {β γ : Type} {P : β → Prop} (stepf : β → γ → β)
    (hstep : ∀ b x, P b → P (stepf b x)) : ∀ (l : List γ) (b : β), P b → P (l.foldl stepf b) := by
  intro l
  induction l with
  | nil => intro b hb; simpa using hb
  | cons x rest ih => intro b hb; exact ih (stepf b x) (hstep b x hb)

theorem bucketStrong_create : bucketStrong createBucketWithHours := by
  simp [bucketStrong, bucketBalancedHolds, createBucketWithHours, createHourBucket,
    List.map_replicate, List.sum_replicate]

theorem dayStrong_create : dayStrong createDayBucket := by
  refine ⟨bucketStrong_create, ?_⟩
  simp [createDayBucket]

theorem bumpBucket_strong (hour : Fin 24) (i o : Nat) (c : Rat) {b : BucketWithHours}
    (hb : bucketStrong b) : bucketStrong (bumpBucket hour i o c b) := by
  obtain ⟨hlen, h1, h2, h3, h4, h5⟩ := hb
  have hlt : hour.val < b.hours.length := by rw [hlen]; exact hour.isLt
  refine ⟨?_, ?_, ?_, ?_, ?_, ?_⟩
  · simp [bumpBucket, modifyAt_length, hlen]
  · show ((modifyAt (bumpHour i o c) b.hours hour.val).map _).sum = b.input_tokens + i
    rw [sum_map_modifyAt _ _ i b.hours hour.val hlt rfl, h1]
  · show ((modifyAt (bumpHour i o c) b.hours hour.val).map _).sum = b.output_tokens + o
    rw [sum_map_modifyAt _ _ o b.hours hour.val hlt rfl, h2]
  · show ((modifyAt (bumpHour i o c) b.hours hour.val).map _).sum = b.cost + c
    rw [sum_map_modifyAt _ _ c b.hours hour.val hlt rfl, h3]
  · show ((modifyAt (bumpHour i o c) b.hours hour.val).map _).sum = b.message_count + 1
    rw [sum_map_modifyAt _ _ 1 b.hours hour.val hlt rfl, h4]
  · show ((modifyAt (bumpHour i o c) b.hours hour.val).map (fun hb => hb.conversation_count)).sum = 0
    rw [sum_map_modifyAt _ _ 0 b.hours hour.val hlt (by simp [bumpHour]), h5]

theorem updateAggregatorUsage_strong {a : Aggregator} (ha : aggStrong a)
    (dayKey : String) (hour : Fin 24) (modelSlug : String) (i o : Nat) :
    aggStrong (updateAggregatorUsage a dayKey hour modelSlug i o) := by
  intro p hp
  refine aupdate_forall ha ?_ dayStrong_create p hp
  intro db hdb
  obtain ⟨hdt, hdm⟩ := hdb
  refine ⟨bumpBucket_strong hour i o _ hdt, ?_⟩
  exact aupdate_forall hdm (fun x hx => bumpBucket_strong hour i o _ hx) bucketStrong_create

theorem incTotalConv_strong {db : DayBucket} (h : dayStrong db) : dayStrong (incTotalConv db) := by
  obtain ⟨⟨hlen, h1, h2, h3, h4, h5⟩, hm⟩ := h
  exact ⟨⟨hlen, h1, h2, h3, h4, h5⟩, hm⟩

theorem incModelConv_strong (modelSlug : String) {db : DayBucket} (h : dayStrong db) :
    dayStrong (incModelConv modelSlug db) := by
  obtain ⟨ht, hm⟩ := h
  refine ⟨ht, ?_⟩
  refine aupdate_forall hm ?_ bucketStrong_create
  intro x hx
  obtain ⟨hlen, h1, h2, h3, h4, h5⟩ := hx
  exact ⟨hlen, h1, h2, h3, h4, h5⟩

theorem conversationRollup_strong {a : Aggregator} (ha : aggStrong a)
    (dayKey : String) (modelsUsed : List String) :
    aggStrong (conversationRollup a dayKey modelsUsed) := by
  unfold conversationRollup
  split
  · refine foldl_preserve (rollupModelStep dayKey) ?_ modelsUsed _ ?_
    · intro b slug hb p hp
      exact aupdate_forall hb (fun x hx => incModelConv_strong slug hx) dayStrong_create p hp
    · intro p hp
      exact aupdate_forall ha (fun x hx => incTotalConv_strong hx) dayStrong_create p hp
  · exact ha

theorem reach_aggStrong {a : Aggregator} (h : Reach a) : aggStrong a := by
  induction h with
  | empty => intro p hp; simp [emptyAggregator] at hp
  | update a dayKey hour modelSlug i o _ ih => exact updateAggregatorUsage_strong ih dayKey hour modelSlug i o
  | rollup a dayKey modelsUsed _ ih => exact conversationRollup_strong ih dayKey modelsUsed

theorem alookup_mem {α : Type} {k : String} {m : List (String × α)} {v : α}
    (h : alookup k m = some v) : (k, v) ∈ m := by
  induction m with
  | nil => simp [alookup] at h
  | cons p rest ih =>
    obtain ⟨k₀, v₀⟩ := p
    by_cases h₀ : k₀ = k
    · subst h₀
      simp [alookup] at h
      simp [h]
    · simp [alookup, h₀] at h
      simp [ih h]

theorem dayBucketOf_strong {a : Aggregator} (ha : aggStrong a) (day : String) :
    dayStrong (dayBucketOf a day) := by
  unfold dayBucketOf
  cases h : alookup day a.usageByDay with
  | none => exact dayStrong_create
  | some db => exact ha (day, db) (alookup_mem h)

theorem modelBucketOf_strong {a : Aggregator} (ha : aggStrong a) (day modelSlug : String) :
    bucketStrong (modelBucketOf a day modelSlug) := by
  unfold modelBucketOf
  cases h : alookup modelSlug (dayBucketOf a day).models with
  | none => exact bucketStrong_create
  | some mb => exact (dayBucketOf_strong ha day).2 (modelSlug, mb) (alookup_mem h)

/-- C3 (corrected, counterexample): the claimed five-field hour-sum balance
fails on a reachable aggregator.  After one usage update and one
per-conversation rollup on day 2025-01-01, the day total bucket has
`conversation_count = 1` while its 24 hour buckets sum to 0, because the
rollup increments only the bucket-level `conversation_count` and never any
hour bucket. -/
theorem claim_C3_counterexample : Reach aggEx ∧ ¬ aggBalancedClaim aggEx := by
  constructor
  · exact Reach.rollup _ _ _ (Reach.update _ _ _ _ _ _ Reach.empty)
  · intro h
    exact absurd ((h "2025-01-01" "gpt-4").1.2.2.2.2) (by decide)

/-- C3 (corrected, amended): in every aggregator reachable from the empty
aggregator by `updateAggregatorUsage` calls and per-conversation rollups,
every day total bucket and every per-model bucket has its 24 hour buckets
summing to its own totals for `input_tokens`, `output_tokens`, `cost` and
`message_count`; for `conversation_count` the hour buckets always sum to
zero (the bucket-level count is maintained only at daily granularity). -/
theorem claim_C3_amended {a : Aggregator} (h : Reach a) :
    ∀ day modelSlug : String,
      bucketBalancedHolds (dayBucketOf a day).total ∧
      bucketBalancedHolds (modelBucketOf a day modelSlug) := by
  have ha := reach_aggStrong h
  intro day modelSlug
  exact ⟨(dayBucketOf_strong ha day).1.2, (modelBucketOf_strong ha day modelSlug).2⟩

theorem claim_C3_amended_witness :
    bucketBalancedHolds (dayBucketOf aggEx "2025-01-01").total ∧
    bucketBalancedHolds (modelBucketOf aggEx "2025-01-01" "gpt-4") :=
  claim_C3_amended (Reach.rollup _ _ _ (Reach.update _ _ _ _ _ _ Reach.empty)) "2025-01-01" "gpt-4"

theorem bucketStrong_hourConv {b : BucketWithHours} (hb : bucketStrong b) (i : Nat) :
    ((b.hours.get? i).getD createHourBucket).conversation_count = 0 := by
  cases h : b.hours.get? i with
  | none => rfl
  | some hb' =>
    have hmem : hb' ∈ b.hours := List.get?_mem h
    have hall := List.sum_eq_zero_iff.mp hb.2.2.2.2.2
    exact hall _ (List.mem_map_of_mem (fun x => x.conversation_count) hmem)

theorem dayConvCount_update (a : Aggregator) (dayKey : String) (hour : Fin 24) (modelSlug : String)
    (i o : Nat) (day : String) :
    dayConvCount (updateAggregatorUsage a dayKey hour modelSlug i o) day = dayConvCount a day := by
  unfold dayConvCount dayBucketOf updateAggregatorUsage
  by_cases h : day = dayKey
  · subst h
    rw [alookup_aupdate_self]
    cases alookup day a.usageByDay <;>
      simp [bumpBucket, createDayBucket, createBucketWithHours]
  · rw [alookup_aupdate_ne (Ne.symm h)]

theorem modelConvCount_update (a : Aggregator) (dayKey : String) (hour : Fin 24) (modelSlug : String)
    (i o : Nat) (day slug : String) :
    modelConvCount (updateAggregatorUsage a dayKey hour modelSlug i o) day slug =
      modelConvCount a day slug := by
  unfold modelConvCount modelBucketOf dayBucketOf updateAggregatorUsage
  by_cases h : day = dayKey
  · subst h
    rw [alookup_aupdate_self]
    by_cases h₂ : slug = modelSlug
    · subst h₂
      cases alookup day a.usageByDay with
      | none =>
        simp [createDayBucket, alookup_aupdate_self]
        cases alookup slug (createDayBucket).models <;>
          simp [bumpBucket, createDayBucket, createBucketWithHours]
      | some db =>
        simp [alookup_aupdate_self]
        cases alookup slug db.models <;>
          simp [bumpBucket, createBucketWithHours]
    · cases alookup day a.usageByDay <;>
        simp [alookup_aupdate_ne (Ne.symm h₂), createDayBucket]
  · rw [alookup_aupdate_ne (Ne.symm h)]

theorem processFlatStep_agg (dayKey : String) (hour : Fin 24) (s : FlatState) (msg : FlatMsg) :
    (processFlatStep dayKey hour s msg).agg = s.agg ∨
    ∃ sl i o, (processFlatStep dayKey hour s msg).agg = updateAggregatorUsage s.agg dayKey hour sl i o := by
  simp only [processFlatStep]
  split_ifs <;>
    first
      | exact Or.inl rfl
      | exact Or.inr ⟨_, _, _, rfl⟩

theorem processFlat_g {α' : Type} (g : Aggregator → α') (dayKey : String) (hour : Fin 24)
    (hg : ∀ a sl i o, g (updateAggregatorUsage a dayKey hour sl i o) = g a) :
    ∀ (msgs : List FlatMsg) (s : FlatState),
      g ((msgs.foldl (processFlatStep dayKey hour) s).agg) = g s.agg := by
  intro msgs
  induction msgs with
  | nil => intro s; rfl
  | cons m rest ih =>
    intro s
    rw [List.foldl_cons, ih]
    rcases processFlatStep_agg dayKey hour s m with he | ⟨sl, i, o, he⟩
    · rw [he]
    · rw [he, hg]

/-- C10 (confirmed): hour buckets never carry conversation counts.  In
every aggregator reachable by usage updates and rollups, the
`conversation_count` of every hour bucket of every day total and of every
per-model bucket is zero; moreover a single `updateAggregatorUsage` call
leaves every bucket-level `conversation_count` (day total and per-model)
unchanged — that counter is written only by the rollup, and only at daily
granularity. -/
theorem claim_C10 :
    (∀ a : Aggregator, Reach a → ∀ day modelSlug : String, ∀ i : Nat,
      (((dayBucketOf a day).total.hours.get? i).getD createHourBucket).conversation_count = 0 ∧
      (((modelBucketOf a day modelSlug).hours.get? i).getD createHourBucket).conversation_count = 0) ∧
    (∀ (a : Aggregator) (dayKey : String) (hour : Fin 24) (modelSlug : String) (i o : Nat)
        (day slug : String),
      dayConvCount (updateAggregatorUsage a dayKey hour modelSlug i o) day = dayConvCount a day ∧
      modelConvCount (updateAggregatorUsage a dayKey hour modelSlug i o) day slug =
        modelConvCount a day slug) := by
  constructor
  · intro a h day modelSlug i
    have ha := reach_aggStrong h
    exact ⟨bucketStrong_hourConv (dayBucketOf_strong ha day).1 i,
      bucketStrong_hourConv (modelBucketOf_strong ha day modelSlug) i⟩
  · intro a dayKey hour modelSlug i o day slug
    exact ⟨dayConvCount_update a dayKey hour modelSlug i o day,
      modelConvCount_update a dayKey hour modelSlug i o day slug⟩

theorem claim_C10_witness :
    ((((dayBucketOf aggEx "2025-01-01").total.hours.get? 0).getD createHourBucket).conversation_count = 0 ∧
      (((modelBucketOf aggEx "2025-01-01" "gpt-4").hours.get? 0).getD createHourBucket).conversation_count = 0) ∧
    (dayConvCount (updateAggregatorUsage emptyAggregator "2025-01-01" ⟨0, by omega⟩ "gpt-4" 1 1) "2025-01-01" =
        dayConvCount emptyAggregator "2025-01-01" ∧
      modelConvCount (updateAggregatorUsage emptyAggregator "2025-01-01" ⟨0, by omega⟩ "gpt-4" 1 1) "2025-01-01" "gpt-4" =
        modelConvCount emptyAggregator "2025-01-01" "gpt-4") :=
  ⟨claim_C10.1 aggEx (Reach.rollup _ _ _ (Reach.update _ _ _ _ _ _ Reach.empty)) "2025-01-01" "gpt-4" 0,
   claim_C10.2 emptyAggregator "2025-01-01" ⟨0, by omega⟩ "gpt-4" 1 1 "2025-01-01" "gpt-4"⟩

theorem foldl_g_eq {β γ α' : Type} (g : β → α') (stepf : β → γ → β)
    (h : ∀ b x, g (stepf b x) = g b) : ∀ (l : List γ) (b : β), g (l.foldl stepf b) = g b := by
  intro l
  induction l with
  | nil => intro b; rfl
  | cons x rest ih => intro b; rw [List.foldl_cons, ih, h]

theorem alookup_getD_aupdate_id {α : Type} (k k' : String) (d : α) (m : List (String × α)) :
    (alookup k' (aupdate k d id m)).getD d = (alookup k' m).getD d := by
  by_cases h : k' = k
  · subst h
    rw [alookup_aupdate_self]
    simp
  · rw [alookup_aupdate_ne (Ne.symm h)]

theorem dayBucketOf_ensure (a : Aggregator) (dk day : String) :
    dayBucketOf { a with usageByDay := aupdate dk createDayBucket id a.usageByDay } day =
      dayBucketOf a day := by
  unfold dayBucketOf
  exact alookup_getD_aupdate_id dk day createDayBucket a.usageByDay

theorem dayConvCount_rollupModelStep (dk : String) (a : Aggregator) (m day : String) :
    dayConvCount (rollupModelStep dk a m) day = dayConvCount a day := by
  unfold dayConvCount dayBucketOf rollupModelStep
  by_cases h : day = dk
  · subst h
    rw [alookup_aupdate_self]
    cases alookup day a.usageByDay <;> simp [incModelConv, createDayBucket]
  · rw [alookup_aupdate_ne (Ne.symm h)]

theorem dayConvCount_rollup (a : Aggregator) (dk : String) (models : List String) (day : String) :
    dayConvCount (conversationRollup a dk models) day =
      dayConvCount a day + (if day = dk ∧ dk ≠ "unknown-day" ∧ models ≠ [] then 1 else 0) := by
  unfold conversationRollup
  split
  case isTrue hg =>
    rw [foldl_g_eq (fun x => dayConvCount x day) (rollupModelStep dk)
      (fun b x => dayConvCount_rollupModelStep dk b x day) models _]
    by_cases h : day = dk
    · subst h
      simp only [dayConvCount, dayBucketOf, alookup_aupdate_self]
      rw [if_pos ⟨trivial, hg⟩]
      cases alookup day a.usageByDay <;> simp [incTotalConv, createDayBucket, createBucketWithHours]
    · simp only [dayConvCount, dayBucketOf]
      rw [alookup_aupdate_ne (Ne.symm h)]
      simp [h]
  case isFalse hg =>
    have hni : ¬ (day = dk ∧ dk ≠ "unknown-day" ∧ models ≠ []) := fun hc => hg ⟨hc.2.1, hc.2.2⟩
    simp [hni]

theorem modelConvCount_rollupModelStep (dk : String) (a : Aggregator) (m day slug : String) :
    modelConvCount (rollupModelStep dk a m) day slug =
      modelConvCount a day slug + (if day = dk ∧ slug = m then 1 else 0) := by
  unfold modelConvCount modelBucketOf dayBucketOf rollupModelStep
  by_cases h : day = dk
  · subst h
    rw [alookup_aupdate_self]
    by_cases h₂ : slug = m
    · subst h₂
      cases alookup day a.usageByDay with
      | none => simp [incModelConv, createDayBucket, alookup_aupdate_self, createBucketWithHours]
      | some db =>
        simp only [incModelConv, Option.getD_some, alookup_aupdate_self]
        cases alookup slug db.models <;> simp [createBucketWithHours]
    · cases alookup day a.usageByDay <;>
        simp [incModelConv, h₂, createDayBucket, alookup_aupdate_ne (Ne.symm h₂)]
  · rw [alookup_aupdate_ne (Ne.symm h)]
    simp [h]

theorem modelConvCount_rollupFold (dk day slug : String) :
    ∀ (models : List String) (a : Aggregator), models.Nodup →
      modelConvCount (models.foldl (rollupModelStep dk) a) day slug =
        modelConvCount a day slug + (if day = dk ∧ slug ∈ models then 1 else 0) := by
  intro models
  induction models with
  | nil => intro a _; simp
  | cons m rest ih =>
    intro a hnd
    have hm : m ∉ rest := (List.nodup_cons.mp hnd).1
    rw [List.foldl_cons, ih _ (List.nodup_cons.mp hnd).2, modelConvCount_rollupModelStep]
    by_cases hd : day = dk
    · by_cases hs : slug = m
      · subst hs
        simp [hd, hm]
      · by_cases hr : slug ∈ rest <;> simp [hd, hs, hr]
    · simp [hd]

theorem modelConvCount_incTotal (a : Aggregator) (dk day slug : String) :
    modelConvCount { a with usageByDay := aupdate dk createDayBucket incTotalConv a.usageByDay }
      day slug = modelConvCount a day slug := by
  unfold modelConvCount modelBucketOf dayBucketOf
  by_cases h : day = dk
  · subst h
    rw [alookup_aupdate_self]
    cases alookup day a.usageByDay <;> simp [incTotalConv, createDayBucket]
  · rw [alookup_aupdate_ne (Ne.symm h)]

theorem modelConvCount_rollup (a : Aggregator) (dk : String) (models : List String)
    (day slug : String) (hnd : models.Nodup) :
    modelConvCount (conversationRollup a dk models) day slug =
      modelConvCount a day slug +
        (if day = dk ∧ dk ≠ "unknown-day" ∧ slug ∈ models then 1 else 0) := by
  unfold conversationRollup
  split
  case isTrue hg =>
    rw [modelConvCount_rollupFold dk day slug models _ hnd, modelConvCount_incTotal]
    by_cases hd : day = dk <;> simp [hd, hg.1]
  case isFalse hg =>
    by_cases h₁ : dk = "unknown-day"
    · simp [h₁]
    · have h₂ : models = [] := by
        by_contra hne
        exact hg ⟨h₁, hne⟩
      simp [h₂]

theorem processFlatStep_models (dayKey : String) (hour : Fin 24) (s : FlatState) (msg : FlatMsg) :
    (processFlatStep dayKey hour s msg).models = flatModelStep s.models msg := by
  simp only [processFlatStep, flatModelStep]
  split_ifs <;> rfl

theorem processFlat_models (dayKey : String) (hour : Fin 24) :
    ∀ (msgs : List FlatMsg) (s : FlatState),
      (msgs.foldl (processFlatStep dayKey hour) s).models = msgs.foldl flatModelStep s.models := by
  intro msgs
  induction msgs with
  | nil => intro s; rfl
  | cons m rest ih =>
    intro s
    rw [List.foldl_cons, List.foldl_cons, ih, processFlatStep_models]

theorem imageGenStep_snd (dayKey : String) (hour : Fin 24) (p : Aggregator × List String)
    (msg : FlatMsg) : (imageGenStep dayKey hour p msg).2 = imageModelStep p.2 msg := by
  simp only [imageGenStep, imageModelStep]
  split_ifs <;> rfl

theorem imageFold_models (dayKey : String) (hour : Fin 24) :
    ∀ (msgs : List FlatMsg) (p : Aggregator × List String),
      (msgs.foldl (imageGenStep dayKey hour) p).2 = msgs.foldl imageModelStep p.2 := by
  intro msgs
  induction msgs with
  | nil => intro p; rfl
  | cons m rest ih =>
    intro p
    rw [List.foldl_cons, List.foldl_cons, ih, imageGenStep_snd]

theorem imageGenStep_g {α' : Type} (g : Aggregator → α') (dayKey : String) (hour : Fin 24)
    (hg : ∀ a sl i o, g (updateAggregatorUsage a dayKey hour sl i o) = g a)
    (p : Aggregator × List String) (msg : FlatMsg) :
    g (imageGenStep dayKey hour p msg).1 = g p.1 := by
  simp only [imageGenStep]
  split_ifs <;> simp [hg]

theorem imageFold_g {α' : Type} (g : Aggregator → α') (dayKey : String) (hour : Fin 24)
    (hg : ∀ a sl i o, g (updateAggregatorUsage a dayKey hour sl i o) = g a) :
    ∀ (msgs : List FlatMsg) (p : Aggregator × List String),
      g (msgs.foldl (imageGenStep dayKey hour) p).1 = g p.1 := by
  intro msgs
  induction msgs with
  | nil => intro p; rfl
  | cons m rest ih =>
    intro p
    rw [List.foldl_cons, ih, imageGenStep_g g dayKey hour hg]

theorem processMapped_g {α' : Type} (g : Aggregator → α') (dayKey : String) (hour : Fin 24)
    (hg : ∀ a sl i o, g (updateAggregatorUsage a dayKey hour sl i o) = g a)
    (msgs : List FlatMsg) (a : Aggregator) :
    g (processMappedMessages msgs dayKey hour a).1 = g a := by
  unfold processMappedMessages processFlatMessagesWithTokenCounts
  dsimp only
  rw [processFlat_g g dayKey hour hg msgs _, imageFold_g g dayKey hour hg msgs _]

theorem processMappedMessages_snd (msgs : List FlatMsg) (dayKey : String) (hour : Fin 24)
    (a : Aggregator) :
    (processMappedMessages msgs dayKey hour a).2 =
      (flatModels msgs).foldl (fun l s => insertIfAbsent s l) (imageModels msgs) := by
  unfold processMappedMessages processFlatMessagesWithTokenCounts
  dsimp only
  rw [processFlat_models, imageFold_models]
  rfl

theorem imageGenStep_fst (dayKey : String) (hour : Fin 24) (p : Aggregator × List String)
    (msg : FlatMsg) :
    (imageGenStep dayKey hour p msg).1 =
      (if msg.role = "tool" then
        (if msg.isDalleTool ∧ 0 < msg.numImageParts
         then [("dalle-3", 0, msg.numImageParts)] else []) ++
        (if (msg.imageGenMarker ∨ 0 < msg.numImageParts) ∧ 0 < msg.numImageParts
         then [("gpt-image-1", 0, msg.numImageParts)] else [])
       else []).foldl (fun a t => updateAggregatorUsage a dayKey hour t.1 t.2.1 t.2.2) p.1 := by
  simp only [imageGenStep]
  split_ifs <;> rfl

theorem imageFold_commits (dayKey : String) (hour : Fin 24) :
    ∀ (msgs : List FlatMsg) (p : Aggregator × List String),
      (msgs.foldl (imageGenStep dayKey hour) p).1 =
        (imageCommitTrace msgs).foldl
          (fun a t => updateAggregatorUsage a dayKey hour t.1 t.2.1 t.2.2) p.1 := by
  intro msgs
  induction msgs with
  | nil => intro p; rfl
  | cons m rest ih =>
    intro p
    rw [List.foldl_cons, ih]
    simp only [imageCommitTrace]
    by_cases hrole : m.role = "tool"
    · rw [if_pos hrole, List.foldl_append]
      congr 1
      rw [imageGenStep_fst, if_pos hrole]
    · rw [if_neg hrole]
      congr 1
      rw [imageGenStep_fst, if_neg hrole]
      rfl

theorem insertIfAbsent_nodup {x : String} {l : List String} (h : l.Nodup) :
    (insertIfAbsent x l).Nodup := by
  unfold insertIfAbsent
  split
  · exact h
  · next hx => simp [List.nodup_append, h, hx]

theorem flatModelStep_nodup (ms : List String) (msg : FlatMsg) (h : ms.Nodup) :
    (flatModelStep ms msg).Nodup := by
  unfold flatModelStep
  split_ifs <;> first | exact h | exact insertIfAbsent_nodup h

theorem flatModels_fold_nodup : ∀ (msgs : List FlatMsg) (ms : List String), ms.Nodup →
    (msgs.foldl flatModelStep ms).Nodup := by
  intro msgs
  induction msgs with
  | nil => intro ms h; simpa using h
  | cons m rest ih =>
    intro ms h
    rw [List.foldl_cons]
    exact ih _ (flatModelStep_nodup ms m h)

theorem imageModelStep_nodup (ms : List String) (msg : FlatMsg) (h : ms.Nodup) :
    (imageModelStep ms msg).Nodup := by
  unfold imageModelStep
  split_ifs <;>
    first
      | exact h
      | exact insertIfAbsent_nodup h
      | exact insertIfAbsent_nodup (insertIfAbsent_nodup h)

theorem imageModels_fold_nodup : ∀ (msgs : List FlatMsg) (ms : List String), ms.Nodup →
    (msgs.foldl imageModelStep ms).Nodup := by
  intro msgs
  induction msgs with
  | nil => intro ms h; simpa using h
  | cons m rest ih =>
    intro ms h
    rw [List.foldl_cons]
    exact ih _ (imageModelStep_nodup ms m h)

theorem insertFold_nodup : ∀ (l acc : List String), acc.Nodup →
    (l.foldl (fun l s => insertIfAbsent s l) acc).Nodup := by
  intro l
  induction l with
  | nil => intro acc h; simpa using h
  | cons x rest ih =>
    intro acc h
    rw [List.foldl_cons]
    exact ih _ (insertIfAbsent_nodup h)

theorem convModels_nodup (c : Conversation) : (convModels c).Nodup :=
  insertFold_nodup _ _ (imageModels_fold_nodup _ [] (by simp))

theorem dayConvCount_ensureDay (a : Aggregator) (dk day : String) :
    dayConvCount (ensureDay a dk) day = dayConvCount a day := by
  unfold ensureDay
  split
  · unfold dayConvCount
    rw [dayBucketOf_ensure]
  · rfl

theorem modelConvCount_ensureDay (a : Aggregator) (dk day slug : String) :
    modelConvCount (ensureDay a dk) day slug = modelConvCount a day slug := by
  unfold ensureDay
  split
  · unfold modelConvCount modelBucketOf
    rw [dayBucketOf_ensure]
  · rfl

theorem dayConvCount_processConversation (now : Int) (c : Conversation) (a : Aggregator)
    (day : String) :
    dayConvCount (processConversation now c a).1 day =
      dayConvCount a day +
        (if day = convDayKey now c ∧ convDayKey now c ≠ "unknown-day" ∧ convModels c ≠ []
         then 1 else 0) := by
  unfold processConversation
  cases hm : c.mapping with
  | none =>
    simp only [hm]
    rw [dayConvCount_rollup, dayConvCount_ensureDay]
    simp [convModels, hm, flatModels, imageModels, convDayKey]
  | some msgs =>
    simp only [hm]
    rw [dayConvCount_rollup]
    rw [processMapped_g (fun x => dayConvCount x day) _ _
      (fun a' sl i o => dayConvCount_update a' _ _ sl i o day) msgs _]
    rw [dayConvCount_ensureDay, processMappedMessages_snd]
    simp [convModels, hm, convDayKey]

theorem modelConvCount_processConversation (now : Int) (c : Conversation) (a : Aggregator)
    (day slug : String) :
    modelConvCount (processConversation now c a).1 day slug =
      modelConvCount a day slug +
        (if day = convDayKey now c ∧ convDayKey now c ≠ "unknown-day" ∧ slug ∈ convModels c
         then 1 else 0) := by
  unfold processConversation
  cases hm : c.mapping with
  | none =>
    simp only [hm]
    rw [modelConvCount_rollup _ _ _ _ _ (by simp), modelConvCount_ensureDay]
    simp [convModels, hm, flatModels, imageModels, convDayKey]
  | some msgs =>
    simp only [hm]
    rw [modelConvCount_rollup _ _ _ _ _ ?hnd]
    case hnd =>
      rw [processMappedMessages_snd]
      exact insertFold_nodup _ _ (imageModels_fold_nodup msgs [] (by simp))
    rw [processMapped_g (fun x => modelConvCount x day slug) _ _
      (fun a' sl i o => modelConvCount_update a' _ _ sl i o day slug) msgs _]
    rw [modelConvCount_ensureDay, processMappedMessages_snd]
    simp [convModels, hm, convDayKey]

theorem dayConvCount_orchStep (now : Int) (a : Aggregator) (c : Conversation) (day : String) :
    dayConvCount (orchStep now a c) day = dayConvCount (processConversation now c a).1 day := rfl

theorem modelConvCount_orchStep (now : Int) (a : Aggregator) (c : Conversation) (day slug : String) :
    modelConvCount (orchStep now a c) day slug =
      modelConvCount (processConversation now c a).1 day slug := rfl

theorem dayConvCount_orchFold (now : Int) (day : String) :
    ∀ (data : List Conversation) (a : Aggregator),
      dayConvCount (data.foldl (orchStep now) a) day =
        dayConvCount a day +
          (data.filter (fun c =>
            decide (day = convDayKey now c ∧ convDayKey now c ≠ "unknown-day" ∧ convModels c ≠ []))).length := by
  intro data
  induction data with
  | nil => intro a; simp
  | cons c rest ih =>
    intro a
    rw [List.foldl_cons, ih, dayConvCount_orchStep, dayConvCount_processConversation]
    by_cases hc : day = convDayKey now c ∧ convDayKey now c ≠ "unknown-day" ∧ convModels c ≠ []
    · simp [List.filter_cons, hc]
      omega
    · simp [List.filter_cons, hc]

theorem modelConvCount_orchFold (now : Int) (day slug : String) :
    ∀ (data : List Conversation) (a : Aggregator),
      modelConvCount (data.foldl (orchStep now) a) day slug =
        modelConvCount a day slug +
          (data.filter (fun c =>
            decide (day = convDayKey now c ∧ convDayKey now c ≠ "unknown-day" ∧ slug ∈ convModels c))).length := by
  intro data
  induction data with
  | nil => intro a; simp
  | cons c rest ih =>
    intro a
    rw [List.foldl_cons, ih, modelConvCount_orchStep, modelConvCount_processConversation]
    by_cases hc : day = convDayKey now c ∧ convDayKey now c ≠ "unknown-day" ∧ slug ∈ convModels c
    · simp [List.filter_cons, hc]
      omega
    · simp [List.filter_cons, hc]

/-- C4 (corrected, counterexample): a conversation whose only entry is a
non-final assistant message with a known slug commits no usage update
(its commit trace is empty and the filter by nonempty commits counts 0),
yet the day total and the per-model `conversation_count` both read 1: the
rollup counts conversations by their discovered-model set, not by whether
any usage update was committed. -/
theorem claim_C4_counterexample :
    dayConvCount (processConversations 0 [convNoFinal]) "1970-01-01" = 1 ∧
    modelConvCount (processConversations 0 [convNoFinal]) "1970-01-01" "gpt-4" = 1 ∧
    convCommits convNoFinal = [] ∧
    ([convNoFinal].filter (fun c =>
      decide (convDayKey 0 c = "1970-01-01" ∧ convCommits c ≠ []))).length = 0 := by
  refine ⟨?_, ?_, by decide, by decide⟩ <;> decide

/-- C4 (corrected, amended): for every processed input array and every day
key other than the sentinel, the day total `conversation_count` equals the
number of conversations whose day key is that day and whose discovered
model set is nonempty, and each model's `conversation_count` equals the
number of conversations whose day key is that day and whose discovered
model set contains that model; the discovered model set holds the
image-generation slugs ("dalle-3", "gpt-image-1") contributed by the
conversation's image-generation tool calls together with every
non-placeholder assistant-entry slug (final or not) — membership does not
require a committed rolling-accumulator usage update.  In particular the
counter moves at most once per conversation per day and per (day, model),
never per message. -/
theorem claim_C4_amended (now : Int) (data : List Conversation) (day slug : String)
    (hday : day ≠ "unknown-day") :
    dayConvCount (processConversations now data) day =
      (data.filter (fun c => decide (convDayKey now c = day ∧ convModels c ≠ []))).length ∧
    modelConvCount (processConversations now data) day slug =
      (data.filter (fun c => decide (convDayKey now c = day ∧ slug ∈ convModels c))).length := by
  have hfilter₁ : ∀ c : Conversation,
      (decide (day = convDayKey now c ∧ convDayKey now c ≠ "unknown-day" ∧ convModels c ≠ [])) =
      (decide (convDayKey now c = day ∧ convModels c ≠ [])) := by
    intro c
    rw [decide_eq_decide]
    constructor
    · rintro ⟨h1, _, h3⟩
      exact ⟨h1.symm, h3⟩
    · rintro ⟨h1, h2⟩
      exact ⟨h1.symm, by rw [h1]; exact hday, h2⟩
  have hfilter₂ : ∀ c : Conversation,
      (decide (day = convDayKey now c ∧ convDayKey now c ≠ "unknown-day" ∧ slug ∈ convModels c)) =
      (decide (convDayKey now c = day ∧ slug ∈ convModels c)) := by
    intro c
    rw [decide_eq_decide]
    constructor
    · rintro ⟨h1, _, h3⟩
      exact ⟨h1.symm, h3⟩
    · rintro ⟨h1, h2⟩
      exact ⟨h1.symm, by rw [h1]; exact hday, h2⟩
  unfold processConversations
  constructor
  · show dayConvCount (List.foldl (orchStep now) _ data) day = _
    rw [dayConvCount_orchFold]
    rw [List.filter_congr (fun c _ => hfilter₁ c)]
    cases data.filterMap (fun c => c.create_time) <;>
      simp [dayConvCount, dayBucketOf, alookup, emptyAggregator, createDayBucket,
        createBucketWithHours]
  · show modelConvCount (List.foldl (orchStep now) _ data) day slug = _
    rw [modelConvCount_orchFold]
    rw [List.filter_congr (fun c _ => hfilter₂ c)]
    cases data.filterMap (fun c => c.create_time) <;>
      simp [modelConvCount, modelBucketOf, dayConvCount, dayBucketOf, alookup, emptyAggregator,
        createDayBucket, createBucketWithHours]

theorem claim_C4_amended_witness :
    ("1970-01-01" : String) ≠ "unknown-day" ∧
    (dayConvCount (processConversations 0 [convNoFinal, convTimed, convImageOnly]) "1970-01-01" =
      ([convNoFinal, convTimed, convImageOnly].filter (fun c =>
        decide (convDayKey 0 c = "1970-01-01" ∧ convModels c ≠ []))).length ∧
    modelConvCount (processConversations 0 [convNoFinal, convTimed, convImageOnly])
        "1970-01-01" "dalle-3" =
      ([convNoFinal, convTimed, convImageOnly].filter (fun c =>
        decide (convDayKey 0 c = "1970-01-01" ∧ "dalle-3" ∈ convModels c))).length) :=
  ⟨by decide,
   claim_C4_amended 0 [convNoFinal, convTimed, convImageOnly] "1970-01-01" "dalle-3" (by decide)⟩

theorem processFlatStep_ctx_mono (dayKey : String) (hour : Fin 24) (s : FlatState) (msg : FlatMsg) :
    s.ctx ≤ (processFlatStep dayKey hour s msg).ctx := by
  simp only [processFlatStep]
  split_ifs <;> first | omega | (dsimp; omega)

/-- C1 (confirmed): the rolling-context accumulator behaves, entry by
entry, exactly as specified.  A reasoning-recap entry changes nothing.  A
non-recap entry always folds its search tokens into the context, whatever
the role.  User, system and tool entries additionally add their content
tokens to the context and trigger no usage update.  An assistant entry
adds content plus output tokens to the context and output tokens to the
pending-output counter, records a non-placeholder slug, and — exactly when
marked final — commits one usage update carrying the just-extended context
as input tokens and the accumulated pending output as output tokens, then
resets pending output to zero.  The context counter never decreases across
any sequence of entries (it is never reset within a conversation). -/
theorem claim_C1 (dayKey : String) (hour : Fin 24) :
    (∀ (s : FlatState) (msg : FlatMsg),
      (msg.isReasoningRecap = true → processFlatStep dayKey hour s msg = s) ∧
      (msg.isReasoningRecap = false →
        (msg.role = "user" ∨ msg.role = "system" ∨ msg.role = "tool") →
        processFlatStep dayKey hour s msg =
          { s with ctx := s.ctx + msg.searchTokens + msg.contentTokens }) ∧
      (msg.isReasoningRecap = false → msg.role = "assistant" → msg.isFinalMessage = false →
        processFlatStep dayKey hour s msg =
          { s with
            ctx := s.ctx + msg.searchTokens + msg.contentTokens + msg.outputTokens
            pend := s.pend + msg.outputTokens
            models := if msg.model_slug ≠ "unknown_model"
              then insertIfAbsent msg.model_slug s.models else s.models }) ∧
      (msg.isReasoningRecap = false → msg.role = "assistant" → msg.isFinalMessage = true →
        processFlatStep dayKey hour s msg =
          { agg := updateAggregatorUsage s.agg dayKey hour msg.model_slug
              (s.ctx + msg.searchTokens + msg.contentTokens + msg.outputTokens)
              (s.pend + msg.outputTokens)
          , ctx := s.ctx + msg.searchTokens + msg.contentTokens + msg.outputTokens
          , pend := 0
          , models := if msg.model_slug ≠ "unknown_model"
              then insertIfAbsent msg.model_slug s.models else s.models }) ∧
      (msg.isReasoningRecap = false →
        ¬ (msg.role = "user" ∨ msg.role = "system" ∨ msg.role = "tool") →
        ¬ msg.role = "assistant" →
        processFlatStep dayKey hour s msg = { s with ctx := s.ctx + msg.searchTokens })) ∧
    (∀ (msgs : List FlatMsg) (s : FlatState),
      s.ctx ≤ (msgs.foldl (processFlatStep dayKey hour) s).ctx) := by
  constructor
  · intro s msg
    have hctx : (if 0 < msg.searchTokens then s.ctx + msg.searchTokens else s.ctx) =
        s.ctx + msg.searchTokens := by
      by_cases h : 0 < msg.searchTokens
      · simp [h]
      · simp [h]
        omega
    refine ⟨?_, ?_, ?_, ?_, ?_⟩
    · intro hrec
      simp [processFlatStep, hrec]
    · intro hrec hrole
      simp only [processFlatStep, hrec, Bool.false_eq_true, if_false, hctx, if_pos hrole]
    · intro hrec hrole hfin
      have hnot : ¬ (msg.role = "user" ∨ msg.role = "system" ∨ msg.role = "tool") := by
        simp [hrole]
      simp only [processFlatStep, hrec, Bool.false_eq_true, if_false, hctx, if_neg hnot,
        if_pos hrole, hfin]
    · intro hrec hrole hfin
      have hnot : ¬ (msg.role = "user" ∨ msg.role = "system" ∨ msg.role = "tool") := by
        simp [hrole]
      simp only [processFlatStep, hrec, Bool.false_eq_true, if_false, hctx, if_neg hnot,
        if_pos hrole, hfin, if_true]
    · intro hrec hnrole hnasst
      simp only [processFlatStep, hrec, Bool.false_eq_true, if_false, hctx, if_neg hnrole,
        if_neg hnasst]
  · intro msgs
    induction msgs with
    | nil => intro s; exact Nat.le_refl _
    | cons m rest ih =>
      intro s
      exact Nat.le_trans (processFlatStep_ctx_mono dayKey hour s m) (ih _)

theorem claim_C1_witness :
    processFlatStep "2025-01-01" ⟨0, by omega⟩
        { agg := emptyAggregator, ctx := 0, pend := 0, models := [] } (userMsg 1) =
      { agg := emptyAggregator, ctx := 0 + (userMsg 1).searchTokens + (userMsg 1).contentTokens
      , pend := 0, models := [] } :=
  ((claim_C1 "2025-01-01" ⟨0, by omega⟩).1
    { agg := emptyAggregator, ctx := 0, pend := 0, models := [] } (userMsg 1)).2.1
    rfl (Or.inl rfl)

theorem processFlatStep_eq_recap {msg : FlatMsg} (dayKey : String) (hour : Fin 24) (s : FlatState)
    (h1 : msg.isReasoningRecap = true) : processFlatStep dayKey hour s msg = s := by
  simp [processFlatStep, h1]

theorem processFlatStep_eq_ust {msg : FlatMsg} (dayKey : String) (hour : Fin 24) (s : FlatState)
    (h1 : msg.isReasoningRecap = false)
    (h2 : msg.role = "user" ∨ msg.role = "system" ∨ msg.role = "tool") :
    processFlatStep dayKey hour s msg =
      { s with ctx := (if 0 < msg.searchTokens then s.ctx + msg.searchTokens else s.ctx) +
          msg.contentTokens } := by
  simp only [processFlatStep, h1, Bool.false_eq_true, if_false, if_pos h2]

theorem processFlatStep_eq_final {msg : FlatMsg} (dayKey : String) (hour : Fin 24) (s : FlatState)
    (h1 : msg.isReasoningRecap = false) (h2 : msg.role = "assistant")
    (h3 : msg.isFinalMessage = true) :
    processFlatStep dayKey hour s msg =
      { agg := updateAggregatorUsage s.agg dayKey hour msg.model_slug
          ((if 0 < msg.searchTokens then s.ctx + msg.searchTokens else s.ctx) +
            msg.contentTokens + msg.outputTokens)
          (s.pend + msg.outputTokens)
      , ctx := (if 0 < msg.searchTokens then s.ctx + msg.searchTokens else s.ctx) +
          msg.contentTokens + msg.outputTokens
      , pend := 0
      , models := if msg.model_slug ≠ "unknown_model"
          then insertIfAbsent msg.model_slug s.models else s.models } := by
  have hnot : ¬ (msg.role = "user" ∨ msg.role = "system" ∨ msg.role = "tool") := by simp [h2]
  simp only [processFlatStep, h1, Bool.false_eq_true, if_false, if_neg hnot, if_pos h2, h3, if_true]

theorem processFlatStep_eq_nonfinal {msg : FlatMsg} (dayKey : String) (hour : Fin 24)
    (s : FlatState) (h1 : msg.isReasoningRecap = false) (h2 : msg.role = "assistant")
    (h3 : msg.isFinalMessage = false) :
    processFlatStep dayKey hour s msg =
      { s with
        ctx := (if 0 < msg.searchTokens then s.ctx + msg.searchTokens else s.ctx) +
          msg.contentTokens + msg.outputTokens
      , pend := s.pend + msg.outputTokens
      , models := if msg.model_slug ≠ "unknown_model"
          then insertIfAbsent msg.model_slug s.models else s.models } := by
  have hnot : ¬ (msg.role = "user" ∨ msg.role = "system" ∨ msg.role = "tool") := by simp [h2]
  simp only [processFlatStep, h1, Bool.false_eq_true, if_false, if_neg hnot, if_pos h2, h3]

theorem processFlatStep_eq_other {msg : FlatMsg} (dayKey : String) (hour : Fin 24) (s : FlatState)
    (h1 : msg.isReasoningRecap = false)
    (h2 : ¬ (msg.role = "user" ∨ msg.role = "system" ∨ msg.role = "tool"))
    (h3 : ¬ msg.role = "assistant") :
    processFlatStep dayKey hour s msg =
      { s with ctx := if 0 < msg.searchTokens then s.ctx + msg.searchTokens else s.ctx } := by
  simp only [processFlatStep, h1, Bool.false_eq_true, if_false, if_neg h2, if_neg h3]

theorem flatFold_commits (dayKey : String) (hour : Fin 24) :
    ∀ (msgs : List FlatMsg) (s : FlatState),
      (msgs.foldl (processFlatStep dayKey hour) s).agg =
        (flatCommitTrace msgs s.ctx s.pend).foldl
          (fun a t => updateAggregatorUsage a dayKey hour t.1 t.2.1 t.2.2) s.agg := by
  intro msgs
  induction msgs with
  | nil => intro s; rfl
  | cons m rest ih =>
    intro s
    rw [List.foldl_cons]
    by_cases h1 : m.isReasoningRecap = true
    · rw [processFlatStep_eq_recap dayKey hour s h1, ih]
      simp only [flatCommitTrace, h1, if_true]
    · have h1' : m.isReasoningRecap = false := by simpa using h1
      by_cases h2 : m.role = "user" ∨ m.role = "system" ∨ m.role = "tool"
      · rw [processFlatStep_eq_ust dayKey hour s h1' h2, ih]
        simp only [flatCommitTrace, h1', Bool.false_eq_true, if_false, if_pos h2]
      · by_cases h3 : m.role = "assistant"
        · by_cases h4 : m.isFinalMessage = true
          · rw [processFlatStep_eq_final dayKey hour s h1' h3 h4, ih]
            simp only [flatCommitTrace, h1', Bool.false_eq_true, if_false, if_neg h2, if_pos h3,
              h4, if_true, List.foldl_cons]
          · have h4' : m.isFinalMessage = false := by simpa using h4
            rw [processFlatStep_eq_nonfinal dayKey hour s h1' h3 h4', ih]
            simp only [flatCommitTrace, h1', Bool.false_eq_true, if_false, if_neg h2, if_pos h3,
              h4', List.foldl_cons]
        · rw [processFlatStep_eq_other dayKey hour s h1' h2 h3, ih]
          simp only [flatCommitTrace, h1', Bool.false_eq_true, if_false, if_neg h2, if_neg h3]

theorem processMapped_commits (msgs : List FlatMsg) (dayKey : String) (hour : Fin 24)
    (a : Aggregator) :
    (processMappedMessages msgs dayKey hour a).1 =
      (imageCommitTrace msgs ++ flatCommitTrace msgs 0 0).foldl
        (fun a t => updateAggregatorUsage a dayKey hour t.1 t.2.1 t.2.2) a := by
  unfold processMappedMessages processFlatMessagesWithTokenCounts
  dsimp only
  rw [flatFold_commits, imageFold_commits, List.foldl_append]

/-- C2 (corrected, counterexample): on the spec's own rolling-context
example — user "A" (1 token), assistant "B" (1 output token, final), user
"C" (1 token), assistant "D" (1 output token, final) — the accumulator
commits `(inputTokens, outputTokens)` pairs (2, 1) and (4, 1), not the
claimed (1, 1) and (3, 1): the assistant entry's own content and output
tokens are added to the rolling context before the commit, so the
turn's input count already includes its own output. -/
theorem claim_C2_counterexample :
    flatCommitTrace convC2 0 0 = [("m1", 2, 1), ("m2", 4, 1)] ∧
    (flatCommitTrace convC2 0 0).map (fun t => t.2) ≠ [(1, 1), (3, 1)] := by
  constructor <;> decide

/-- C2 (corrected, amended): on the two-turn conversation with 1 content
token per user entry and 1 output token per final assistant entry, the
rolling accumulator commits exactly two usage updates: the first with
inputTokens = 2 and outputTokens = 1, the second with inputTokens = 4 and
outputTokens = 1 (turn 1's user content, assistant output, and turn 2's
user content all appear in turn 2's input count, together with turn 2's
own output). -/
theorem claim_C2_amended :
    flatCommitTrace convC2 0 0 = [("m1", 2, 1), ("m2", 4, 1)] := by decide

/-- C5 (confirmed): the image token estimator is the stated pure function.
With detail "low" it returns 85 for all dimensions.  With detail "high"
it equals the specification formula: scale proportionally (floor) so the
larger side becomes 2048 when either dimension exceeds 2048, then
85 + 170 × ceil(w/512) × ceil(h/512); the four concrete spec values hold.
Determinism and freedom from side effects hold by construction: the
source's async function awaits nothing and writes nothing, and is embedded
as this pure function of its arguments. -/
theorem claim_C5 : ∀ w h : Nat,
    countImageTokens w h "low" = 85 ∧
    countImageTokens w h "high" = specHighTokens w h ∧
    countImageTokens 1024 1024 "high" = 765 ∧
    countImageTokens 512 512 "high" = 255 ∧
    countImageTokens 100 100 "low" = 85 ∧
    countImageTokens 4096 1024 "high" = 765 := by
  intro w h
  refine ⟨rfl, ?_, by decide, by decide, by decide, by decide⟩
  show countImageTokens w h "high" = specHighTokens w h
  simp only [countImageTokens, specHighTokens, specScaledDims]
  rw [if_neg (by decide : ¬ strLower "high" = "low")]
  by_cases hg : 2048 < w ∨ 2048 < h
  · simp only [if_pos hg]
    by_cases hw : h < w
    · simp only [if_pos hw, if_pos (Nat.le_of_lt hw)]
    · by_cases hle : h ≤ w
      · have heq : h = w := Nat.le_antisymm hle (Nat.le_of_not_lt hw)
        subst heq
        have hpos : 0 < h := by
          rcases hg with hg | hg <;> omega
        simp only [if_neg hw, if_pos hle]
        rw [Nat.mul_div_assoc _ (dvd_refl h), Nat.div_self hpos, Nat.mul_one]
      · simp only [if_neg hw, if_neg hle]
  · simp only [if_neg hg]

/-- C6 (confirmed): the cost recorded by a single usage update.  For every
model slug and all token counts, one `updateAggregatorUsage` call adds to
the day total cost and to the model's daily cost exactly: the flat
per-image rate times `outputTokens` (read as an image count) when the slug
is a key of `IMAGE_MODEL_COSTS`; otherwise
inputTokens/1e6 × inputRate + outputTokens/1e6 × outputRate with the rates
from `MODEL_COSTS`, defaulting to zero rates when the slug is absent. -/
theorem claim_C6 (a : Aggregator) (dayKey : String) (hour : Fin 24) (modelSlug : String)
    (inputTokens outputTokens : Nat) :
    (dayBucketOf (updateAggregatorUsage a dayKey hour modelSlug inputTokens outputTokens)
        dayKey).total.cost =
      (dayBucketOf a dayKey).total.cost +
        (match alookup modelSlug IMAGE_MODEL_COSTS with
         | some perImage => (outputTokens : Rat) * perImage
         | none =>
           (inputTokens : Rat) / 1000000 * ((alookup modelSlug MODEL_COSTS).getD ⟨0, 0⟩).input +
           (outputTokens : Rat) / 1000000 * ((alookup modelSlug MODEL_COSTS).getD ⟨0, 0⟩).output) ∧
    (modelBucketOf (updateAggregatorUsage a dayKey hour modelSlug inputTokens outputTokens)
        dayKey modelSlug).cost =
      (modelBucketOf a dayKey modelSlug).cost +
        (match alookup modelSlug IMAGE_MODEL_COSTS with
         | some perImage => (outputTokens : Rat) * perImage
         | none =>
           (inputTokens : Rat) / 1000000 * ((alookup modelSlug MODEL_COSTS).getD ⟨0, 0⟩).input +
           (outputTokens : Rat) / 1000000 * ((alookup modelSlug MODEL_COSTS).getD ⟨0, 0⟩).output) := by
  constructor
  · simp only [updateAggregatorUsage, dayBucketOf]
    rw [alookup_aupdate_self]
    cases alookup dayKey a.usageByDay <;>
      simp [bumpBucket, createDayBucket, createBucketWithHours]
  · simp only [updateAggregatorUsage, modelBucketOf, dayBucketOf]
    rw [alookup_aupdate_self]
    cases alookup dayKey a.usageByDay with
    | none =>
      simp only [Option.getD_some, Option.getD_none]
      rw [alookup_aupdate_self]
      simp [bumpBucket, createDayBucket, createBucketWithHours, alookup]
    | some db =>
      simp only [Option.getD_some]
      rw [alookup_aupdate_self]
      simp only [Option.getD_some]
      cases alookup modelSlug db.models <;>
        simp [bumpBucket, createBucketWithHours]

theorem processConversation_now_irrel (c : Conversation) (h : c.create_time ≠ none)
    (n₁ n₂ : Int) (a : Aggregator) :
    processConversation n₁ c a = processConversation n₂ c a := by
  unfold processConversation
  cases hc : c.create_time with
  | none => exact absurd hc h
  | some t => simp [hc]

/-- C7 (corrected, counterexample): the orchestrator is not independent of
the wall-clock moment of the run.  On a single conversation whose
`create_time` is missing, the source falls back to `Date.now() / 1000`, so
running at the epoch buckets the usage under 1970-01-01, while running one
day later buckets it under 1970-01-02: the two aggregators differ. -/
theorem claim_C7_counterexample :
    convMissingTs.create_time = none ∧
    dayConvCount (processConversations 0 [convMissingTs]) "1970-01-01" = 1 ∧
    dayConvCount (processConversations 86400 [convMissingTs]) "1970-01-01" = 0 ∧
    processConversations 0 [convMissingTs] ≠ processConversations 86400 [convMissingTs] := by
  refine ⟨rfl, by decide, by decide, ?_⟩
  intro h
  exact absurd (congrArg (fun a => dayConvCount a "1970-01-01") h) (by decide)

/-- C7 (corrected, amended): the orchestrator is a pure function of its
input and the wall-clock instant it reads; two runs on identical input
yield identical aggregators provided every conversation carries a numeric
creation timestamp, and then the result does not depend on the wall-clock
instant at all.  A conversation with a missing `create_time` is instead
stamped with `Date.now() / 1000`, making its day/hour bucketing depend on
when the run happens. -/
theorem claim_C7_amended (data : List Conversation) (n₁ n₂ : Int)
    (h : ∀ c ∈ data, c.create_time ≠ none) :
    processConversations n₁ data = processConversations n₂ data := by
  have hfold : ∀ (l : List Conversation), (∀ c ∈ l, c.create_time ≠ none) →
      ∀ a : Aggregator, l.foldl (orchStep n₁) a = l.foldl (orchStep n₂) a := by
    intro l
    induction l with
    | nil => intro _ a; rfl
    | cons c rest ih =>
      intro hl a
      rw [List.foldl_cons, List.foldl_cons]
      have hstep : orchStep n₁ a c = orchStep n₂ a c := by
        unfold orchStep
        rw [processConversation_now_irrel c (hl c (by simp)) n₁ n₂ a]
      rw [hstep, ih (fun c' hc' => hl c' (by simp [hc']))]
  simp only [processConversations]
  rw [hfold data h]

theorem claim_C7_amended_witness :
    processConversations 0 [convTimed] = processConversations 12345 [convTimed] :=
  claim_C7_amended [convTimed] 0 12345 (by decide)

theorem dates_ensureDay (a : Aggregator) (dk : String) :
    (ensureDay a dk).startDate = a.startDate ∧ (ensureDay a dk).endDate = a.endDate := by
  unfold ensureDay
  split <;> exact ⟨rfl, rfl⟩

theorem dates_rollupModelStep (dk : String) (b : Aggregator) (x : String) :
    (rollupModelStep dk b x).startDate = b.startDate ∧
    (rollupModelStep dk b x).endDate = b.endDate := ⟨rfl, rfl⟩

theorem dates_rollup (a : Aggregator) (dk : String) (ms : List String) :
    (conversationRollup a dk ms).startDate = a.startDate ∧
    (conversationRollup a dk ms).endDate = a.endDate := by
  unfold conversationRollup
  split
  · constructor
    · rw [foldl_g_eq (fun x => x.startDate) (rollupModelStep dk)
        (fun b x => (dates_rollupModelStep dk b x).1) ms _]
    · rw [foldl_g_eq (fun x => x.endDate) (rollupModelStep dk)
        (fun b x => (dates_rollupModelStep dk b x).2) ms _]
  · exact ⟨rfl, rfl⟩

theorem dates_processConversation (now : Int) (c : Conversation) (a : Aggregator) :
    (processConversation now c a).1.startDate = a.startDate ∧
    (processConversation now c a).1.endDate = a.endDate := by
  unfold processConversation
  cases hm : c.mapping with
  | none =>
    simp only [hm]
    refine ⟨?_, ?_⟩
    · rw [(dates_rollup _ _ _).1, (dates_ensureDay _ _).1]
    · rw [(dates_rollup _ _ _).2, (dates_ensureDay _ _).2]
  | some msgs =>
    simp only [hm]
    refine ⟨?_, ?_⟩
    · rw [(dates_rollup _ _ _).1,
        processMapped_g (fun x => x.startDate) _ _ (fun a' sl i o => rfl) msgs _,
        (dates_ensureDay _ _).1]
    · rw [(dates_rollup _ _ _).2,
        processMapped_g (fun x => x.endDate) _ _ (fun a' sl i o => rfl) msgs _,
        (dates_ensureDay _ _).2]

theorem dates_orchStep (now : Int) (a : Aggregator) (c : Conversation) :
    (orchStep now a c).startDate = a.startDate ∧ (orchStep now a c).endDate = a.endDate := by
  simp only [orchStep]
  exact dates_processConversation now c a

/-- C8 (corrected, counterexample): a conversation with a missing creation
timestamp is not routed to the "unknown-day" sentinel bucket.  Running at
the epoch, its one usage update lands in the real "1970-01-01" bucket
(input_tokens 1), that day's conversation-count rollup fires, and no
"unknown-day" key exists in the aggregator at all. -/
theorem claim_C8_counterexample :
    convMissingTs.create_time = none ∧
    alookup "unknown-day" (processConversations 0 [convMissingTs]).usageByDay = none ∧
    dayConvCount (processConversations 0 [convMissingTs]) "1970-01-01" = 1 ∧
    (dayBucketOf (processConversations 0 [convMissingTs]) "1970-01-01").total.input_tokens = 1 := by
  exact ⟨rfl, by decide, by decide, by decide⟩

/-- C8 (corrected, amended): a conversation whose creation timestamp is
missing is processed without throwing, but its usage is not routed to the
"unknown-day" sentinel: the conversation is treated exactly as if it had
been created at the current wall-clock instant (`Date.now() / 1000`), so
its usage lands in that real day's bucket and participates in that day's
conversation-count rollup.  Missing timestamps are still excluded from the
`startDate`/`endDate` range, which is computed only over numeric
`create_time` values (it stays unset when every timestamp is missing). -/
theorem claim_C8_amended (now : Int) (conv : Conversation) (a : Aggregator)
    (data : List Conversation) (hconv : conv.create_time = none)
    (hdata : ∀ c ∈ data, c.create_time = none) :
    processConversation now conv a =
      processConversation now { conv with create_time := some now } a ∧
    (processConversations now data).startDate = none ∧
    (processConversations now data).endDate = none := by
  refine ⟨?_, ?_, ?_⟩
  · unfold processConversation
    simp [hconv]
  · have htimes : data.filterMap (fun c => c.create_time) = [] :=
      List.filterMap_eq_nil_iff.mpr hdata
    simp only [processConversations, htimes]
    rw [foldl_g_eq (fun x => x.startDate) (orchStep now)
      (fun b x => (dates_orchStep now b x).1) data _]
    rfl
  · have htimes : data.filterMap (fun c => c.create_time) = [] :=
      List.filterMap_eq_nil_iff.mpr hdata
    simp only [processConversations, htimes]
    rw [foldl_g_eq (fun x => x.endDate) (orchStep now)
      (fun b x => (dates_orchStep now b x).2) data _]
    rfl

theorem claim_C8_amended_witness :
    (processConversation 0 convMissingTs emptyAggregator =
      processConversation 0 { convMissingTs with create_time := some 0 } emptyAggregator) ∧
    (processConversations 0 [convMissingTs]).startDate = none ∧
    (processConversations 0 [convMissingTs]).endDate = none :=
  claim_C8_amended 0 convMissingTs emptyAggregator [convMissingTs] rfl (by decide)

/-- C9 (corrected, counterexample): teardown does not reject outstanding
requests.  With one outstanding `countTextTokens` request (id 0, promise
pending), `terminateTokenizerWorker` clears the pending maps but invokes
no stored rejecter: the promise is still pending afterwards (in
particular not rejected), and a worker response for that id arriving
later no longer settles it, because its callbacks were dropped — the
promise is left permanently unsettled. -/
theorem claim_C9_counterexample :
    tokenizerBusy.pending = [0] ∧
    tokenizerBusy.promises 0 = PromiseState.pending ∧
    (terminateTokenizerWorker tokenizerBusy).pending = [] ∧
    (terminateTokenizerWorker tokenizerBusy).promises 0 = PromiseState.pending ∧
    (terminateTokenizerWorker tokenizerBusy).promises 0 ≠ PromiseState.rejected ∧
    (workerOnMessage (terminateTokenizerWorker tokenizerBusy)
        (WorkerMsg.response 0 (some 5) none false)).promises 0 = PromiseState.pending := by
  refine ⟨by decide, by decide, by decide, by decide, by decide, by decide⟩

/-- C9 (corrected, amended): calling `terminateTokenizerWorker` while a
worker handle exists terminates the worker, nulls the handle, drops
readiness, and clears all pending state — but it settles no promise:
every request's promise state is exactly what it was before the call
(outstanding ones stay pending forever), and any worker message arriving
after the teardown leaves every promise unchanged, since the pending maps
are empty. -/
theorem claim_C9_amended (s : TokenizerState) (h : s.workerAlive = true) (id : Nat) :
    (terminateTokenizerWorker s).promises id = s.promises id ∧
    (terminateTokenizerWorker s).pending = [] ∧
    (terminateTokenizerWorker s).workerAlive = false ∧
    (terminateTokenizerWorker s).workerReady = false ∧
    ∀ msg : WorkerMsg,
      (workerOnMessage (terminateTokenizerWorker s) msg).promises id = s.promises id := by
  unfold terminateTokenizerWorker
  rw [if_pos h]
  refine ⟨rfl, rfl, rfl, rfl, ?_⟩
  intro msg
  cases msg with
  | ready => rfl
  | response id' count error fb =>
    simp [workerOnMessage]

theorem claim_C9_amended_witness :
    (terminateTokenizerWorker tokenizerBusy).promises 0 = tokenizerBusy.promises 0 ∧
    (terminateTokenizerWorker tokenizerBusy).pending = [] ∧
    (terminateTokenizerWorker tokenizerBusy).workerAlive = false ∧
    (terminateTokenizerWorker tokenizerBusy).workerReady = false ∧
    (workerOnMessage (terminateTokenizerWorker tokenizerBusy) WorkerMsg.ready).promises 0 =
      tokenizerBusy.promises 0 :=
  ⟨(claim_C9_amended tokenizerBusy rfl 0).1, (claim_C9_amended tokenizerBusy rfl 0).2.1,
   (claim_C9_amended tokenizerBusy rfl 0).2.2.1, (claim_C9_amended tokenizerBusy rfl 0).2.2.2.1,
   (claim_C9_amended tokenizerBusy rfl 0).2.2.2.2 WorkerMsg.ready⟩

end WhatTheToken
